import Mathlib

/-!
# OpenHack patch engine: shallow embedding of `src/shared/hacks/hacks.cpp`

The development models the process memory, the opcode apply / verify operations,
the toggle component and the catalog loader of `openhack::hacks`, and proves the
properties of the specification against these definitions. The token replacement of
`src/shared/hacks/discord-rpc/discord-rpc.cpp` is modelled as well.

Conventions.
* `uint8_t` is `Fin 256`; `uintptr_t` arithmetic is taken modulo `2 ^ 64`.
* Code that mutates the process (memory writes) passes a `Process` value explicitly.
* Code that can throw (JSON accessors, helpers of `utils`) returns `Except String`.
* A loop that need not end takes a bound on its iterations and returns `none` when the
  bound is reached.
* Helpers of the repository that are not part of `hacks.cpp` (`utils::*`,
  `config::*`, `gd::patterns::match`, the header `hacks.hpp`) are either parameters
  (`Externals`) or definitions whose doc comment starts with `Modelled from the spec:`.
-/

namespace OpenHack

/-! ## Process memory -/

/-- One `uint8_t`. -/
abbrev Byte := Fin 256

/-- Number of values of a `uintptr_t`. -/
def ptrMod : Nat := 2 ^ 64

/-- Modelled from the spec: the type `gd::patterns::Opcode` (its declaration is not in
`hacks.cpp`), with the fields in the order of the data model: `address`, `library`,
`original`, `patched`. -/
structure Opcode where
  address : Nat
  library : String
  original : List Byte
  patched : List Byte
deriving DecidableEq, Repr

/-- The state of the host process that the patch engine observes and changes.
* `mainModule` is the result of `utils::getModuleHandle()`;
* `libModule name` is the result of `utils::getModuleHandle(name)`, `0` (a null handle)
  when no module of that name is loaded;
* `bytes` is the content of the address space;
* `writable address length` tells whether the memory access layer can make the range
  writable, that is whether a write of `length` bytes at `address` succeeds;
* `writes` records every call of `utils::patchMemory`, oldest first, successful or not. -/
structure Process where
  mainModule : Nat
  libModule : String → Nat
  bytes : Nat → Byte
  writable : Nat → Nat → Bool
  writes : List (Nat × List Byte)

/-- Content of memory after the bytes `bs` have been stored from `address` on. -/
def storeBytes (mem : Nat → Byte) (address : Nat) (bs : List Byte) : Nat → Byte :=
  fun a => if address ≤ a then (bs[a - address]?).getD (mem a) else mem a

/-- Modelled from the spec: `utils::patchMemory` (section 4.3, `write(address, bytes) -> success`):
a write of one contiguous range either stores all bytes and reports `true`, or stores
none and reports `false`. Every call is appended to `writes`. -/
def patchMemory (p : Process) (address : Nat) (bs : List Byte) : Bool × Process :=
  let called : Process := { p with writes := p.writes ++ [(address, bs)] }
  if p.writable address bs.length then
    (true, { called with bytes := storeBytes p.bytes address bs })
  else
    (false, called)

/-- Modelled from the spec: `utils::readMemory` (section 4.3, `read(address, length) -> bytes`):
the `size` bytes found from `address` on. Reading never changes the process. -/
def readMemory (p : Process) (address size : Nat) : List Byte :=
  (List.range size).map (fun i => p.bytes (address + i))

/-- The handle selection shared by `applyOpcode` and `verifyOpcode`
(`hacks.cpp` lines 217-222 and 231-236). -/
def moduleHandle (p : Process) (library : String) : Nat :=
  if library.isEmpty then p.mainModule else p.libModule library

/-- The line `uintptr_t address = handle + opcode.address;`. -/
def targetAddress (p : Process) (opcode : Opcode) : Nat :=
  (moduleHandle p opcode.library + opcode.address) % ptrMod

/-- The function `applyOpcode` (`hacks.cpp` lines 216-228). -/
def applyOpcode (opcode : Opcode) (enable : Bool) (p : Process) : Bool × Process :=
  let address := targetAddress p opcode
  let bytes := if enable then opcode.patched else opcode.original
  patchMemory p address bytes

/-- The function `verifyOpcode` (`hacks.cpp` lines 230-242). -/
def verifyOpcode (opcode : Opcode) (p : Process) : Bool :=
  let address := targetAddress p opcode
  let bytes := readMemory p address opcode.original.length
  decide (bytes = opcode.original)

/-! ## Persistence -/

/-- Modelled from the spec: the store behind `config::get<bool>` and `config::set`
(section 6, `get(key, default) -> value`, `set(key, value)`); a key holds a boolean or
nothing. -/
structure Config where
  entries : String → Option Bool

/-- Modelled from the spec: `config::get<bool>(key, default)`. -/
def Config.get (cfg : Config) (key : String) (dflt : Bool) : Bool :=
  (cfg.entries key).getD dflt

/-- Modelled from the spec: `config::set(key, value)`. -/
def Config.set (cfg : Config) (key : String) (value : Bool) : Config :=
  { entries := fun k => if k = key then some value else cfg.entries k }

/-! ## Toggle components -/

/-- Modelled from the spec: the members of `ToggleComponent` (declared in `hacks.hpp`,
which is not part of the sources): the constructor takes name, id and opcodes, the other
members start empty / false. -/
structure ToggleComponent where
  m_name : String
  m_id : String
  m_opcodes : List Opcode
  m_description : String := ""
  m_hasWarning : Bool := false
  m_enabled : Bool := false
  m_isCheat : Bool := false
deriving DecidableEq, Repr

/-- The loop of `ToggleComponent::applyPatch` (`hacks.cpp` lines 36-40): `success` is the
local variable, the process is threaded through the calls of `applyOpcode`. -/
def applyLoop (enable : Bool) : List Opcode → Bool → Process → Bool × Process
  | [], success, p => (success, p)
  | opcode :: rest, success, p =>
    let r := applyOpcode opcode enable p
    applyLoop enable rest (if !r.1 then false else success) r.2

/-- The method `ToggleComponent::applyPatch(bool enable)` (`hacks.cpp` lines 32-43). -/
def ToggleComponent.applyPatch (c : ToggleComponent) (enable : Bool) (p : Process) :
    Bool × Process :=
  if c.m_hasWarning then (false, p)
  else applyLoop enable c.m_opcodes true p

/-- Modelled from the spec: the call `applyPatch()` without argument, whose declaration is
in `hacks.hpp`: section 4.5 has `toggle()` call `apply(opcode, enabled)` for every owned
opcode, so the argument is the current `m_enabled`. -/
def ToggleComponent.applyPatchCurrent (c : ToggleComponent) (p : Process) : Bool × Process :=
  c.applyPatch c.m_enabled p

/-- The method `ToggleComponent::onInit` (`hacks.cpp` lines 5-11). -/
def ToggleComponent.onInit (c : ToggleComponent) (cfg : Config) (p : Process) :
    ToggleComponent × Process :=
  let c1 := { c with m_enabled := cfg.get ("hack." ++ c.m_id) false }
  if c1.m_enabled then (c1, (c1.applyPatchCurrent p).2) else (c1, p)

/-- The method `ToggleComponent::toggled` (`hacks.cpp` lines 45-48). The component itself
is not changed, the results are the new configuration and process. -/
def ToggleComponent.toggled (c : ToggleComponent) (cfg : Config) (p : Process) :
    Config × Process :=
  let r := c.applyPatchCurrent p
  (cfg.set ("hack." ++ c.m_id) c.m_enabled, r.2)

/-- Modelled from the spec: `gui::checkbox(label, &value)` between `ImGui::BeginDisabled()`
and `ImGui::EndDisabled()` when `disabled` holds. `click` tells whether the user clicks
the box in this frame. A click on an enabled box flips the value and is reported as
pressed; a disabled box is inert (section 4.5, "renders visually inert"). The result is
`(pressed, value)`. -/
def checkbox (disabled click value : Bool) : Bool × Bool :=
  if click && !disabled then (true, !value) else (false, value)

/-- The method `ToggleComponent::onDraw` (`hacks.cpp` lines 13-30); tooltips have no effect
on the modelled state. -/
def ToggleComponent.onDraw (c : ToggleComponent) (click : Bool) (cfg : Config) (p : Process) :
    ToggleComponent × Config × Process :=
  let r := checkbox c.m_hasWarning click c.m_enabled
  let c1 := { c with m_enabled := r.2 }
  if r.1 then (c1, c1.toggled cfg p) else (c1, cfg, p)

/-- The events after `onInit` in the life of a toggle component: a frame is drawn (with or
without a click on its checkbox), or `toggled()` is called directly. -/
inductive ToggleEvent where
  | draw (click : Bool)
  | toggle
deriving DecidableEq, Repr

/-- A component together with the configuration and the process it acts on. -/
structure ToggleState where
  comp : ToggleComponent
  cfg : Config
  proc : Process

/-- One event applied to a state. -/
def ToggleState.step (s : ToggleState) : ToggleEvent → ToggleState
  | .draw click =>
    let r := s.comp.onDraw click s.cfg s.proc
    { comp := r.1, cfg := r.2.1, proc := r.2.2 }
  | .toggle =>
    let r := s.comp.toggled s.cfg s.proc
    { comp := s.comp, cfg := r.1, proc := r.2 }

/-- The state of a component after `onInit` followed by the given events. -/
def lifecycle (c : ToggleComponent) (cfg : Config) (p : Process) (events : List ToggleEvent) :
    ToggleState :=
  let r := c.onInit cfg p
  events.foldl ToggleState.step { comp := r.1, cfg := cfg, proc := r.2 }

/-! ## Components and windows -/

/-- The two kinds of `Component` that `initialize` constructs. -/
inductive Component where
  | toggle (t : ToggleComponent)
  | text (m_text : String)
deriving DecidableEq, Repr

/-- Modelled from the spec: `gui::Window`, a title and the components drawn by its
callback, in drawing order. -/
structure Window where
  title : String
  components : List Component
deriving DecidableEq, Repr

/-! ## JSON values (`nlohmann::json`) -/

/-- A parsed JSON value. The members of an object are kept in the iteration order of the
library. -/
inductive Json where
  | null
  | bool (b : Bool)
  | num (n : Int)
  | str (s : String)
  | arr (elems : List Json)
  | obj (members : List (String × Json))

/-- The call `j.contains(key)`: true for an object that has the key. -/
def Json.contains : Json → String → Bool
  | .obj members, key => members.any (fun m => m.1 == key)
  | _, _ => false

/-- The call `j.at(key)`: throws for a value that is no object and for a missing key. -/
def Json.atKey : Json → String → Except String Json
  | .obj members, key =>
    match members.find? (fun m => m.1 == key) with
    | some m => .ok m.2
    | none => .error "out_of_range"
  | _, _ => .error "type_error"

/-- The call `j.get<std::string>()`: throws for a value that is no string. -/
def Json.getString : Json → Except String String
  | .str s => .ok s
  | _ => .error "type_error"

/-- The call `j.get<bool>()`: throws for a value that is no boolean. -/
def Json.getBool : Json → Except String Bool
  | .bool b => .ok b
  | _ => .error "type_error"

/-- The values visited by `for (const auto &x : j)`: the elements of an array, the member
values of an object, nothing for null, the value itself otherwise. -/
def Json.elements : Json → List Json
  | .arr elems => elems
  | .obj members => members.map Prod.snd
  | .null => []
  | j => [j]

/-! ## Collaborators of the loader that are not part of `hacks.cpp` -/

/-- The functions called by the loader whose code is outside `hacks.cpp`:
`utils::hexToBytes`, `utils::hexToAddr`, `utils::compareVersion`,
`gd::patterns::match` (which reads the memory of the process), `std::sort` on the
component vector, and `getName()` of a text component. Those that can throw return
`Except`. -/
structure Externals where
  hexToBytes : String → Except String (List Byte)
  hexToAddr : String → Except String Nat
  compareVersion : String → Bool
  patternsMatch : String → String → String → Process → Except String (List Opcode)
  stdSort : (Component → Component → Bool) → List Component → List Component
  textGetName : String → String

/-- The virtual call `component->getName()`. -/
def Component.getName (E : Externals) : Component → String
  | .toggle t => t.m_name
  | .text m_text => E.textGetName m_text

/-! ## The catalog loader -/

/-- The optional member `lib` (`hacks.cpp` lines 66-69 and 127-130). -/
def readLibrary (opcode : Json) : Except String String :=
  if opcode.contains "lib" then do
    let lib ← opcode.atKey "lib"
    lib.getString
  else
    pure ""

/-- The function `readOpcode` (`hacks.cpp` lines 58-72). -/
def readOpcode (E : Externals) (opcode : Json) : Except String Opcode := do
  let addrStr ← (← opcode.atKey "addr").getString
  let onStr ← (← opcode.atKey "on").getString
  let offStr ← (← opcode.atKey "off").getString
  let onBytes ← E.hexToBytes onStr
  let offBytes ← E.hexToBytes offStr
  let library ← readLibrary opcode
  let address ← E.hexToAddr addrStr
  pure { address := address, library := library, original := offBytes, patched := onBytes }

/-- The version gate of an item or opcode entry (`hacks.cpp` lines 101-105 and 117-122):
the result is true when the entry is skipped by `continue`. -/
def versionSkips (E : Externals) (entry : Json) : Except String Bool :=
  if entry.contains "version" then do
    let version ← (← entry.atKey "version").getString
    pure (!E.compareVersion version)
  else
    pure false

/-- How one pass through a loop body ends: the loop goes on with the next element, or it
is left by `break`. -/
inductive Flow (σ : Type) where
  | next (s : σ)
  | stop (s : σ)
deriving DecidableEq, Repr

/-- The state carried by a `Flow`. -/
def Flow.state {σ : Type} : Flow σ → σ
  | .next s => s
  | .stop s => s

/-- The local variables `opcodes` and `warn` of the toggle branch of `initialize`. -/
structure OpcodeAcc where
  opcodes : List Opcode
  warn : Bool
deriving DecidableEq, Repr

/-- One pass of the verification performed on an opcode before it is pushed
(`hacks.cpp` lines 139-141 and 145-147). -/
def pushVerified (p : Process) (acc : OpcodeAcc) (o : Opcode) : OpcodeAcc :=
  { opcodes := acc.opcodes ++ [o], warn := if !verifyOpcode o p then true else acc.warn }

/-- The loop over the matches of a pattern (`hacks.cpp` lines 138-142). -/
def pushMatches (p : Process) : List Opcode → OpcodeAcc → OpcodeAcc
  | [], acc => acc
  | o :: rest, acc => pushMatches p rest (pushVerified p acc o)

/-- The body of the loop over the opcode entries of a toggle (`hacks.cpp` lines 117-148). -/
def opcodeBody (E : Externals) (p : Process) (opcode : Json) (acc : OpcodeAcc) :
    Except String (Flow OpcodeAcc) := do
  if (← versionSkips E opcode) then
    pure (.next acc)
  else if opcode.contains "pattern" then
    let pattern ← (← opcode.atKey "pattern").getString
    let mask ← (← opcode.atKey "mask").getString
    let library ← readLibrary opcode
    let opc ← E.patternsMatch pattern mask library p
    if opc.isEmpty then
      pure (.stop { acc with warn := true })
    else
      pure (.next (pushMatches p opc acc))
  else
    let opc ← readOpcode E opcode
    pure (.next (pushVerified p acc opc))

/-- The loop over the opcode entries of a toggle (`hacks.cpp` lines 116-149). The result
tells whether the loop ran to the end of the list (`next`) or was left by `break`
(`stop`). -/
def opcodeRun (E : Externals) (p : Process) : List Json → OpcodeAcc →
    Except String (Flow OpcodeAcc)
  | [], acc => .ok (.next acc)
  | opcode :: rest, acc =>
    match opcodeBody E p opcode acc with
    | .error e => .error e
    | .ok (.stop acc1) => .ok (.stop acc1)
    | .ok (.next acc1) => opcodeRun E p rest acc1

/-- The optional member `description` (`hacks.cpp` lines 162-164). -/
def readDescription (component : Json) (toggle : ToggleComponent) :
    Except String ToggleComponent :=
  if component.contains "description" then do
    let d ← (← component.atKey "description").getString
    pure { toggle with m_description := d }
  else pure toggle

/-- The optional member `cheat` (`hacks.cpp` lines 166-168). -/
def readCheat (component : Json) (toggle : ToggleComponent) : Except String ToggleComponent :=
  if component.contains "cheat" then do
    let b ← (← component.atKey "cheat").getBool
    pure { toggle with m_isCheat := b }
  else pure toggle

/-- Construction of a toggle component from its definition (`hacks.cpp` lines 112-168). -/
def loadToggle (E : Externals) (p : Process) (component : Json) :
    Except String ToggleComponent := do
  let toggleTitle ← (← component.atKey "title").getString
  let id ← (← component.atKey "id").getString
  let entries ← component.atKey "opcodes"
  let acc := (← opcodeRun E p entries.elements { opcodes := [], warn := false }).state
  let warn := if acc.opcodes.isEmpty then true else acc.warn
  let toggle : ToggleComponent :=
    { m_name := toggleTitle, m_id := id, m_opcodes := acc.opcodes, m_hasWarning := warn }
  let toggle ← readDescription component toggle
  let toggle ← readCheat component toggle
  pure toggle

/-- The body of the loop over the items of a window definition (`hacks.cpp` lines 101-173):
the result is the vector `windowComponents` after the item. -/
def itemBody (E : Externals) (p : Process) (component : Json)
    (windowComponents : List Component) : Except String (List Component) := do
  if (← versionSkips E component) then
    pure windowComponents
  else
    let type ← (← component.atKey "type").getString
    if type == "text" then
      let text ← (← component.atKey "text").getString
      pure (windowComponents ++ [Component.text text])
    else if type == "toggle" then
      let toggle ← loadToggle E p component
      pure (windowComponents ++ [Component.toggle toggle])
    else
      pure windowComponents

/-- The loop over the items of a window definition (`hacks.cpp` lines 100-174). -/
def itemLoop (E : Externals) (p : Process) : List Json → List Component →
    Except String (List Component)
  | [], windowComponents => .ok windowComponents
  | component :: rest, windowComponents =>
    match itemBody E p component windowComponents with
    | .error e => .error e
    | .ok next => itemLoop E p rest next

/-- Modelled from the spec: the function `::tolower` of the C library in its default
locale, which maps `A` .. `Z` to `a` .. `z` and leaves every other character alone. -/
def tolower (c : Char) : Char :=
  if 'A' ≤ c ∧ c ≤ 'Z' then Char.ofNat (c.toNat + 32) else c

/-- The two `std::transform(..., ::tolower)` calls of the comparison (`hacks.cpp` lines
181-182), applied to one name. -/
def lowerName (name : String) : String :=
  String.mk (name.data.map tolower)

/-- The comparison `a < b` of two `std::string`: lexicographic on the characters, a proper
initial part coming first. -/
def stringLess : List Char → List Char → Bool
  | _, [] => false
  | [], _ :: _ => true
  | a :: as, b :: bs => if a < b then true else if b < a then false else stringLess as bs

/-- The comparison passed to `std::sort` (`hacks.cpp` lines 177-185). -/
def nameLess (E : Externals) (a b : Component) : Bool :=
  stringLess (lowerName (a.getName E)).data (lowerName (b.getName E)).data

/-- The virtual call `component->onInit()`; a text component has no state and does
nothing. -/
def Component.onInit (cfg : Config) (p : Process) : Component → Component × Process
  | .toggle t => let r := t.onInit cfg p; (.toggle r.1, r.2)
  | .text m_text => (.text m_text, p)

/-- The loop that initializes the components (`hacks.cpp` lines 188-190). -/
def initComponents (cfg : Config) : List Component → Process → List Component × Process
  | [], p => ([], p)
  | component :: rest, p =>
    let r := component.onInit cfg p
    let rs := initComponents cfg rest r.2
    (r.1 :: rs.1, rs.2)

/-- The components of a window definition after the sort and before initialization
(`hacks.cpp` lines 100-185). -/
def sortedComponents (E : Externals) (p : Process) (items : List Json) :
    Except String (List Component) := do
  let windowComponents ← itemLoop E p items []
  pure (E.stdSort (nameLess E) windowComponents)

/-- The `try` block of `initialize` for one parsed definition (`hacks.cpp` lines 97-197):
the new window and the process after the components were initialized. -/
def loadWindow (E : Externals) (cfg : Config) (p : Process) (json : Json) :
    Except String (Window × Process) := do
  let title ← (← json.atKey "title").getString
  let items ← json.atKey "items"
  let windowComponents ← sortedComponents E p items.elements
  let r := initComponents cfg windowComponents p
  pure ({ title := title, components := r.1 }, r.2)

/-- The function `initialize` (`hacks.cpp` lines 74-206) on the definition files found in
the hacks directory. Each file is given by the result of `nlohmann::json::parse` on its
content; a file whose parsing or loading throws is skipped. -/
def initializeHacks (E : Externals) (cfg : Config) :
    List (Except String Json) → List Window → Process → List Window × Process
  | [], windows, p => (windows, p)
  | file :: rest, windows, p =>
    match file >>= loadWindow E cfg p with
    | .error _ => initializeHacks E cfg rest windows p
    | .ok r => initializeHacks E cfg rest (windows ++ [r.1]) r.2

/-! ## Sample data used to evaluate the definitions -/

/-- A process whose main module is loaded at `0x1000`, whose memory is all zero and where
every write succeeds. -/
def sampleProcess : Process :=
  { mainModule := 0x1000, libModule := fun _ => 0, bytes := fun _ => 0,
    writable := fun _ _ => true, writes := [] }

/-- A patch of two bytes at offset `0x10` of the main module. -/
def sampleOpcode : Opcode :=
  { address := 0x10, library := "", original := [0x74, 0x05], patched := [0x90, 0x90] }

/-- An opcode whose patched bytes extend its original bytes: one original byte, two
patched bytes with the same first byte. -/
def longerPatchOpcode : Opcode :=
  { address := 0x10, library := "", original := [0x00], patched := [0x00, 0x90] }

/-- Value of one hexadecimal digit. -/
def hexDigit (c : Char) : Option Nat :=
  if '0' ≤ c ∧ c ≤ '9' then some (c.toNat - 48)
  else if 'a' ≤ c ∧ c ≤ 'f' then some (c.toNat - 87)
  else if 'A' ≤ c ∧ c ≤ 'F' then some (c.toNat - 55)
  else none

/-- Bytes written as consecutive pairs of hexadecimal digits. -/
def hexPairs : List Char → Except String (List Byte)
  | [] => .ok []
  | [_] => .error "invalid_argument"
  | a :: b :: rest =>
    match hexDigit a, hexDigit b, hexPairs rest with
    | some hi, some lo, .ok bs => .ok (Fin.ofNat (hi * 16 + lo) :: bs)
    | _, _, _ => .error "invalid_argument"

/-- Modelled from the spec: `utils::hexToBytes` on the `hex-bytes` strings of section 6:
two hexadecimal digits per byte, blanks between bytes are ignored. -/
def sampleHexToBytes (hex : String) : Except String (List Byte) :=
  hexPairs (hex.data.filter (fun c => c != ' '))

/-- Number written in hexadecimal digits, most significant first. -/
def hexNumber : List Char → Nat → Except String Nat
  | [], acc => .ok acc
  | c :: rest, acc =>
    match hexDigit c with
    | some d => hexNumber rest (acc * 16 + d)
    | none => .error "invalid_argument"

/-- Modelled from the spec: `utils::hexToAddr` on the `hex-string` of section 6, reduced
to a `uintptr_t`. -/
def sampleHexToAddr (hex : String) : Except String Nat :=
  (hexNumber hex.data 0).map (fun n => n % ptrMod)

/-- A sort that meets the contract of `std::sort`: insertion sort by "not greater". -/
def sampleSort (less : Component → Component → Bool) (l : List Component) : List Component :=
  l.insertionSort (fun a b => less b a = false)

/-- A sample pattern matcher: the pattern `74 05` is found once, at offset `0x10` of
the main module, with the replacement `90 90`; no other pattern is found. -/
def samplePatternsMatch (pattern _mask library : String) (_p : Process) :
    Except String (List Opcode) :=
  if pattern == "74 05" then
    .ok [{ address := 0x10, library := library, original := [0x74, 0x05],
           patched := [0x90, 0x90] }]
  else .ok []

/-- A sample environment: the running version is `2.204`, which satisfies the constraints
`2.204` and `*`; a text component is named by its text. -/
def sampleExternals : Externals :=
  { hexToBytes := sampleHexToBytes
    hexToAddr := sampleHexToAddr
    compareVersion := fun version => version == "2.204" || version == "*"
    patternsMatch := samplePatternsMatch
    stdSort := sampleSort
    textGetName := fun text => text }

/-- A static opcode definition whose `on` bytes are longer than its `off` bytes. -/
def mismatchedOpcodeJson : Json :=
  .obj [("addr", .str "10"), ("on", .str "00 90"), ("off", .str "00")]

/-- A process like `sampleProcess` in which no write succeeds. -/
def lockedProcess : Process :=
  { sampleProcess with writable := fun _ _ => false }

/-- An empty configuration. -/
def emptyConfig : Config := { entries := fun _ => none }

/-- A configuration in which the toggle `noclip` is stored as enabled. -/
def noclipOnConfig : Config := emptyConfig.set "hack.noclip" true

/-- A supported toggle with one opcode. -/
def sampleToggle : ToggleComponent :=
  { m_name := "Noclip", m_id := "noclip", m_opcodes := [sampleOpcode] }

/-- The same toggle marked as unsupported. -/
def unsupportedToggle : ToggleComponent :=
  { sampleToggle with m_hasWarning := true }

/-- A supported toggle whose only opcode has more patched than original bytes. -/
def longerPatchToggle : ToggleComponent :=
  { m_name := "Long", m_id := "long", m_opcodes := [longerPatchOpcode] }

/-- What holds of an unsupported component in every state of its life: the warning flag
and the identifier stay, the process is the one it started with, and the stored value is
the enabled flag. -/
structure UnsupportedInv (c : ToggleComponent) (p : Process) (s : ToggleState) : Prop where
  warning : s.comp.m_hasWarning = true
  ident : s.comp.m_id = c.m_id
  process : s.proc = p
  stored : s.cfg.get ("hack." ++ s.comp.m_id) false = s.comp.m_enabled

/-- Memory after the writes of one pass of `applyPatch` over `ops` in which every write
succeeded; `addr` gives the target address of an opcode. -/
def storeAll (enable : Bool) (addr : Opcode → Nat) (ops : List Opcode) (mem : Nat → Byte) :
    Nat → Byte :=
  ops.foldl (fun m o => storeBytes m (addr o) (if enable then o.patched else o.original)) mem

/-- Two opcodes whose address ranges overlap in the byte at offset `0x11`. -/
def overlappingToggle : ToggleComponent :=
  { m_name := "Overlap", m_id := "overlap",
    m_opcodes :=
      [{ address := 0x10, library := "", original := [0x00, 0x00], patched := [0x01, 0x01] },
       { address := 0x11, library := "", original := [0x00, 0x00], patched := [0x02, 0x02] }] }

/-- The effect of `onInit` on the members of a component: a toggle gets its enabled flag
from the configuration. -/
def Component.withStoredFlag (cfg : Config) : Component → Component
  | .toggle t => .toggle { t with m_enabled := cfg.get ("hack." ++ t.m_id) false }
  | .text m_text => .text m_text

/-- The writes attempted by `onInit` of a component: the patched bytes of every opcode of
a supported toggle that is stored as enabled. -/
def Component.initWrites (cfg : Config) (p : Process) : Component → List (Nat × List Byte)
  | .toggle t =>
    if cfg.get ("hack." ++ t.m_id) false = true ∧ t.m_hasWarning = false then
      t.m_opcodes.map (fun o => (targetAddress p o, o.patched))
    else []
  | .text _ => []

/-- A window definition with the toggle `Noclip` before the text `apple`. -/
def noclipAppleJson : Json :=
  .obj [("title", .str "Player"),
        ("items", .arr [
          .obj [("type", .str "toggle"), ("title", .str "Noclip"), ("id", .str "noclip"),
                ("opcodes", .arr [.obj [("addr", .str "10"), ("on", .str "90 90"),
                                        ("off", .str "00 00")]])],
          .obj [("type", .str "text"), ("text", .str "apple")]])]

/-- The components constructed from `noclipAppleJson`, in definition order. -/
def noclipAppleComponents : List Component :=
  [.toggle { m_name := "Noclip", m_id := "noclip",
             m_opcodes := [{ address := 0x10, library := "", original := [0x00, 0x00],
                             patched := [0x90, 0x90] }] },
   .text "apple"]

/-! ## Predicates used to state the behaviour of the loader -/

/-- The version gate lets the entry through: the entry is not skipped by `continue`. -/
def gateOpen (E : Externals) (entry : Json) : Bool :=
  match versionSkips E entry with
  | .ok true => false
  | _ => true

/-- The opcode entry passes its gate and contributes the opcodes `os`: a static entry the
opcode that `readOpcode` returns, a pattern entry its matches, of which there is at least
one. -/
def EntryLoads (E : Externals) (p : Process) (e : Json) (os : List Opcode) : Prop :=
  versionSkips E e = .ok false ∧
  ((e.contains "pattern" = false ∧ ∃ o, readOpcode E e = .ok o ∧ os = [o]) ∨
   (e.contains "pattern" = true ∧ os ≠ [] ∧
     ∃ pattern mask library,
       (e.atKey "pattern" >>= Json.getString) = .ok pattern ∧
       (e.atKey "mask" >>= Json.getString) = .ok mask ∧
       readLibrary e = .ok library ∧
       E.patternsMatch pattern mask library p = .ok os))

/-- The opcode entry passes its gate and is a pattern entry that matches no address. -/
def EntryFindsNothing (E : Externals) (p : Process) (e : Json) : Prop :=
  versionSkips E e = .ok false ∧ e.contains "pattern" = true ∧
  ∃ pattern mask library,
    (e.atKey "pattern" >>= Json.getString) = .ok pattern ∧
    (e.atKey "mask" >>= Json.getString) = .ok mask ∧
    readLibrary e = .ok library ∧
    E.patternsMatch pattern mask library p = .ok []

/-- Every opcode of the accumulator that fails verification has set `warn`. -/
def VerifiedOrWarned (p : Process) (acc : OpcodeAcc) : Prop :=
  (∃ o ∈ acc.opcodes, verifyOpcode o p = false) → acc.warn = true

/-- A static opcode entry for version `2.204`; its `off` bytes are those of the sample
process. -/
def staticEntry204 : Json :=
  .obj [("version", .str "2.204"), ("addr", .str "10"), ("on", .str "90 90"),
        ("off", .str "00 00")]

/-- The opcode read from `staticEntry204`. -/
def staticOpcode204 : Opcode :=
  { address := 0x10, library := "", original := [0x00, 0x00], patched := [0x90, 0x90] }

/-- A static opcode entry of the same toggle for version `2.113`. -/
def staticEntry113 : Json :=
  .obj [("version", .str "2.113"), ("addr", .str "20"), ("on", .str "90 90"),
        ("off", .str "00 00")]

/-- A pattern entry, for any version, whose pattern is found nowhere. -/
def lostPatternEntry : Json :=
  .obj [("version", .str "*"), ("pattern", .str "FF"), ("mask", .str "x")]

/-- A toggle definition whose first opcode entry is a pattern that is not found and whose
second entry is a static opcode for the running version. -/
def lostPatternToggleJson : Json :=
  .obj [("type", .str "toggle"), ("title", .str "Speed"), ("id", .str "speed"),
        ("opcodes", .arr [lostPatternEntry, staticEntry204])]

/-- The toggle built from `lostPatternToggleJson`. -/
def lostPatternToggle : ToggleComponent :=
  { m_name := "Speed", m_id := "speed", m_opcodes := [], m_hasWarning := true }

/-- A static opcode entry whose `off` bytes are not those of the sample process. -/
def staleEntry : Json :=
  .obj [("addr", .str "10"), ("on", .str "90 90"), ("off", .str "74 05")]

/-- A toggle definition whose only opcode entry fails verification on the sample process. -/
def staleToggleJson : Json :=
  .obj [("type", .str "toggle"), ("title", .str "Noclip"), ("id", .str "noclip"),
        ("opcodes", .arr [staleEntry])]

/-- The toggle built from `staleToggleJson`. -/
def staleToggle : ToggleComponent :=
  { m_name := "Noclip", m_id := "noclip", m_opcodes := [sampleOpcode], m_hasWarning := true }

/-- The values returned by the successive calls of `applyOpcode` in the loop of
`applyPatch`, in call order; every call runs on the process left by the call before it. -/
def callResults (enable : Bool) : List Opcode → Process → List Bool
  | [], _ => []
  | opcode :: rest, p =>
    (applyOpcode opcode enable p).1 :: callResults enable rest (applyOpcode opcode enable p).2

/-- Memory after one pass over `ops` in which the writes that `writable` allows are stored,
in list order, and the others are left out; `addr` gives the target address of an opcode. -/
def storeSuccessful (enable : Bool) (writable : Nat → Nat → Bool) (addr : Opcode → Nat)
    (ops : List Opcode) (mem : Nat → Byte) : Nat → Byte :=
  ops.foldl
    (fun m o =>
      if writable (addr o) (if enable then o.patched else o.original).length then
        storeBytes m (addr o) (if enable then o.patched else o.original)
      else m)
    mem

/-- A process like `sampleProcess` in which a write at `0x1010` fails and every other
write succeeds. -/
def halfLockedProcess : Process :=
  { sampleProcess with writable := fun address _ => address != 0x1010 }

/-- A supported toggle with an opcode at offset `0x10` and one at offset `0x20`. -/
def twoOpcodeToggle : ToggleComponent :=
  { m_name := "Two", m_id := "two",
    m_opcodes :=
      [{ address := 0x10, library := "", original := [0x00], patched := [0x01] },
       { address := 0x20, library := "", original := [0x00], patched := [0x02] }] }

/-- A toggle definition whose only opcode entry is for another version of the game. -/
def otherVersionToggleJson : Json :=
  .obj [("type", .str "toggle"), ("title", .str "Icons"), ("id", .str "icons"),
        ("opcodes", .arr [staticEntry113])]

/-- The toggle built from `otherVersionToggleJson`. -/
def otherVersionToggle : ToggleComponent :=
  { m_name := "Icons", m_id := "icons", m_opcodes := [], m_hasWarning := true }

/-- A configuration in which the toggle `icons` is stored as enabled. -/
def iconsOnConfig : Config := emptyConfig.set "hack.icons" true

/-- An opcode for the library `libcocos2d.dll`, which is not loaded in the sample process
(its handle there is null). -/
def unloadedLibraryOpcode : Opcode :=
  { address := 0x10, library := "libcocos2d.dll", original := [0x00, 0x00],
    patched := [0x90, 0x90] }

/-- The enabled flag of the component is consistent with the memory of the process: at the
address of every owned opcode the memory holds the patched bytes when the flag is true
and the original bytes when it is false. -/
def flagMatchesMemory (c : ToggleComponent) (q : Process) : Bool :=
  c.m_opcodes.all (fun o =>
    decide (readMemory q (targetAddress q o)
        (if c.m_enabled then o.patched else o.original).length
      = (if c.m_enabled then o.patched else o.original)))

/-- The address ranges written by one pass of `applyPatch(enable)` do not overlap. -/
def RangesDisjoint (enable : Bool) (addr : Opcode → Nat) (ops : List Opcode) : Prop :=
  ops.Pairwise (fun a b =>
    addr a + (if enable then a.patched else a.original).length ≤ addr b ∨
    addr b + (if enable then b.patched else b.original).length ≤ addr a)

/-- A configuration in which the toggle `overlap` is stored as enabled. -/
def overlapOnConfig : Config := emptyConfig.set "hack.overlap" true

/-- A configuration in which the toggle `two` is stored as enabled. -/
def twoOnConfig : Config := emptyConfig.set "hack.two" true

/-! ## Token replacement of the presence texts (`discord-rpc.cpp`) -/

/-- What the token functions of `DiscordRPC::replaceTokens` read from the game
(`discord-rpc.cpp` lines 228-300): the player name, whether a play layer or an editor
layer exists, the name and the creator of its level, whether `isRobTopLevel` holds of it,
and the text returned by the function of each of the other tokens (numbers and fixed
words). -/
structure GameState where
  playerName : String
  hasLayer : Bool
  levelName : String
  creatorName : String
  robTopLevel : Bool
  rendered : String → String

/-- The map `tokens` (`discord-rpc.cpp` lines 228-300) with the value that each function
returns in the given state, listed in the order of the source. -/
def tokenTable (g : GameState) : List (String × String) :=
  [("{username}", g.playerName),
   ("{id}", if g.hasLayer then g.rendered "{id}" else ""),
   ("{name}", if g.hasLayer then g.levelName else "Unknown"),
   ("{author}",
     if g.hasLayer then (if g.robTopLevel then "RobTop" else g.creatorName) else "Unknown"),
   ("{difficulty}", g.rendered "{difficulty}"),
   ("{progress}", g.rendered "{progress}"),
   ("{best}", g.rendered "{best}"),
   ("{objects}", g.rendered "{objects}"),
   ("{stars}", g.rendered "{stars}"),
   ("{attempts}", g.rendered "{attempts}"),
   ("{rating}", g.rendered "{rating}"),
   ("{star_emoji}", g.rendered "{star_emoji}")]

/-- The search of `std::string::find` from the position `pos` on, `str` being what is
left of the string there. -/
def findFrom (token : List Char) : List Char → Nat → Option Nat
  | [], pos => if token.isPrefixOf [] then some pos else none
  | c :: rest, pos =>
    if token.isPrefixOf (c :: rest) then some pos else findFrom token rest (pos + 1)

/-- The call `str.find(token)`: the first position where `token` occurs, `none` for
`npos`. -/
def stringFind (str token : List Char) : Option Nat :=
  findFrom token str 0

/-- The call `str.replace(pos, len, value)`. -/
def stringReplace (str : List Char) (pos len : Nat) (value : List Char) : List Char :=
  str.take pos ++ value ++ str.drop (pos + len)

/-- The `while` loop of one token (`discord-rpc.cpp` lines 305-309). `fuel` bounds the
number of times the loop condition is tested; the result is `none` when the loop has not
ended within that bound. -/
def replaceLoop (token value : List Char) : Nat → List Char → Option (List Char)
  | 0, _ => none
  | fuel + 1, str =>
    match stringFind str token with
    | none => some str
    | some pos => replaceLoop token value fuel (stringReplace str pos token.length value)

/-- The `for` loop of `DiscordRPC::replaceTokens` (`discord-rpc.cpp` lines 304-312) over
the entries of the map in iteration order, on the configured text `str`; `fuel` bounds
the loop of each token. -/
def replaceTokens (fuel : Nat) : List (String × String) → List Char → Option (List Char)
  | [], str => some str
  | token :: rest, str =>
    match replaceLoop token.1.data token.2.data fuel str with
    | none => none
    | some str1 => replaceTokens fuel rest str1

/-- A game state in which the level that is played has the name `{name}`. -/
def braceNameState : GameState :=
  { playerName := "Player", hasLayer := true, levelName := "{name}",
    creatorName := "Creator", robTopLevel := false, rendered := fun _ => "0" }

/-- A game state in which the first official level is played. -/
def stereoMadnessState : GameState :=
  { playerName := "Player", hasLayer := true, levelName := "Stereo Madness",
    creatorName := "", robTopLevel := true, rendered := fun _ => "0" }

/-- The item passes its gate and adds the components `cs` to the window: a text item its
text component, a toggle item the toggle that `loadToggle` returns, an item of any other
type (such as `embedded`) nothing. -/
def ItemYields (E : Externals) (p : Process) (item : Json) (cs : List Component) : Prop :=
  versionSkips E item = .ok false ∧
  ∃ type, (item.atKey "type" >>= Json.getString) = .ok type ∧
    ((type = "text" ∧ ∃ text, (item.atKey "text" >>= Json.getString) = .ok text ∧
        cs = [.text text]) ∨
     (type = "toggle" ∧ ∃ t, loadToggle E p item = .ok t ∧ cs = [.toggle t]) ∨
     (type ≠ "text" ∧ type ≠ "toggle" ∧ cs = []))

/-- A text item without version constraint. -/
def helloTextJson : Json :=
  .obj [("type", .str "text"), ("text", .str "Hello")]

/-- A text item for version `2.113`. -/
def oldTextJson : Json :=
  .obj [("version", .str "2.113"), ("type", .str "text"), ("text", .str "Old")]

/-- An item of the type `embedded`, for which `initialize` constructs nothing. -/
def embeddedItemJson : Json :=
  .obj [("type", .str "embedded"), ("id", .str "menu")]

/-- The opcode entries can all be processed without an exception, whatever the state of
the loop: the entries that pass the gate load one after the other, either all of them or
up to a pattern entry that matches no address, where the loop is left. -/
def EntriesReadable (E : Externals) (p : Process) (entries : List Json) : Prop :=
  (∃ oss, List.Forall₂ (EntryLoads E p) (entries.filter (gateOpen E)) oss) ∨
  (∃ front e rest oss, entries = front ++ e :: rest ∧
    List.Forall₂ (EntryLoads E p) (front.filter (gateOpen E)) oss ∧ EntryFindsNothing E p e)

/-- A toggle definition with a description whose first opcode entry fails verification on
the sample process and whose second entry, for another version, is skipped. -/
def staleThenSkippedToggleJson : Json :=
  .obj [("type", .str "toggle"), ("title", .str "Noclip"), ("id", .str "noclip"),
        ("description", .str "Walk through anything"), ("cheat", .bool true),
        ("opcodes", .arr [staleEntry, staticEntry113])]

/-- The toggle built from `staleThenSkippedToggleJson`. -/
def staleThenSkippedToggle : ToggleComponent :=
  { m_name := "Noclip", m_id := "noclip", m_opcodes := [sampleOpcode],
    m_description := "Walk through anything", m_hasWarning := true, m_isCheat := true }

/-! ## End of definitions -/

/-! ## Basic facts about the memory layer -/

theorem storeBytes_inside (mem : Nat → Byte) (address : Nat) (bs : List Byte) (i : Nat)
    (h : i < bs.length) : storeBytes mem address bs (address + i) = bs[i] := by
  simp [storeBytes, h]

theorem storeBytes_outside (mem : Nat → Byte) (address : Nat) (bs : List Byte) (a : Nat)
    (h : a < address ∨ address + bs.length ≤ a) : storeBytes mem address bs a = mem a := by
  unfold storeBytes
  split
  · rename_i hle
    have hge : bs.length ≤ a - address := by omega
    simp [List.getElem?_eq_none hge]
  · rfl

theorem readMemory_length (p : Process) (address size : Nat) :
    (readMemory p address size).length = size := by
  simp [readMemory]

theorem readMemory_eq_iff (p : Process) (address : Nat) (bs : List Byte) :
    readMemory p address bs.length = bs ↔ ∀ i (h : i < bs.length), p.bytes (address + i) = bs[i] := by
  constructor
  · intro h i hi
    have h1 : (readMemory p address bs.length)[i]? = bs[i]? := by rw [h]
    simp [readMemory, List.getElem?_map, List.getElem?_range hi, hi] at h1
    exact h1
  · intro h
    apply List.ext_getElem
    · simp [readMemory]
    · intro i h1 h2
      simp [readMemory, h i h2]

theorem patchMemory_mainModule (p : Process) (address : Nat) (bs : List Byte) :
    (patchMemory p address bs).2.mainModule = p.mainModule := by
  by_cases hw : p.writable address bs.length = true <;> simp [patchMemory, hw]

theorem patchMemory_libModule (p : Process) (address : Nat) (bs : List Byte) :
    (patchMemory p address bs).2.libModule = p.libModule := by
  by_cases hw : p.writable address bs.length = true <;> simp [patchMemory, hw]

theorem patchMemory_moduleHandle (p : Process) (address : Nat) (bs : List Byte) (lib : String) :
    moduleHandle (patchMemory p address bs).2 lib = moduleHandle p lib := by
  simp [moduleHandle, patchMemory_mainModule, patchMemory_libModule]

theorem patchMemory_targetAddress (p : Process) (address : Nat) (bs : List Byte) (o : Opcode) :
    targetAddress (patchMemory p address bs).2 o = targetAddress p o := by
  unfold targetAddress
  rw [patchMemory_moduleHandle]

theorem patchMemory_writable (p : Process) (address : Nat) (bs : List Byte) :
    (patchMemory p address bs).2.writable = p.writable := by
  unfold patchMemory
  split <;> rfl

theorem patchMemory_writes (p : Process) (address : Nat) (bs : List Byte) :
    (patchMemory p address bs).2.writes = p.writes ++ [(address, bs)] := by
  unfold patchMemory
  split <;> rfl

theorem patchMemory_bytes_of_success (p : Process) (address : Nat) (bs : List Byte)
    (h : (patchMemory p address bs).1 = true) :
    (patchMemory p address bs).2.bytes = storeBytes p.bytes address bs := by
  unfold patchMemory at h ⊢
  split
  · rfl
  · rename_i hw
    simp [hw] at h

theorem patchMemory_bytes_of_failure (p : Process) (address : Nat) (bs : List Byte)
    (h : (patchMemory p address bs).1 = false) :
    (patchMemory p address bs).2.bytes = p.bytes := by
  unfold patchMemory at h ⊢
  split
  · rename_i hw
    simp [hw] at h
  · rfl

theorem applyOpcode_targetAddress (o : Opcode) (enable : Bool) (p : Process) (o' : Opcode) :
    targetAddress (applyOpcode o enable p).2 o' = targetAddress p o' := by
  unfold applyOpcode
  exact patchMemory_targetAddress _ _ _ _

/-! ## Apply and verify on one opcode -/

theorem applyOpcode_bytes_of_success (o : Opcode) (enable : Bool) (p : Process)
    (h : (applyOpcode o enable p).1 = true) :
    (applyOpcode o enable p).2.bytes =
      storeBytes p.bytes (targetAddress p o) (if enable then o.patched else o.original) := by
  unfold applyOpcode at h ⊢
  exact patchMemory_bytes_of_success _ _ _ h

theorem verifyOpcode_eq_true_iff (o : Opcode) (p : Process) :
    verifyOpcode o p = true ↔
      ∀ i (h : i < o.original.length), p.bytes (targetAddress p o + i) = o.original[i] := by
  unfold verifyOpcode
  simp only [decide_eq_true_eq]
  exact readMemory_eq_iff p _ _

/-- C1: if `applyOpcode(opcode, true)` succeeds and `applyOpcode(opcode, false)` then
succeeds, the `len(original)` bytes of memory from `base(library) + opcode.address` on are
equal to `opcode.original`, as a sequence and byte for byte. -/
theorem applyOpcode_on_off_restores_original (o : Opcode) (p : Process)
    (hon : (applyOpcode o true p).1 = true)
    (hoff : (applyOpcode o false (applyOpcode o true p).2).1 = true) :
    readMemory (applyOpcode o false (applyOpcode o true p).2).2 (targetAddress p o)
        o.original.length = o.original ∧
      ∀ i (h : i < o.original.length),
        (applyOpcode o false (applyOpcode o true p).2).2.bytes (targetAddress p o + i)
          = o.original[i] := by
  have hb := applyOpcode_bytes_of_success o false _ hoff
  have ha : targetAddress (applyOpcode o true p).2 o = targetAddress p o :=
    applyOpcode_targetAddress o true p o
  have hpt : ∀ i (h : i < o.original.length),
      (applyOpcode o false (applyOpcode o true p).2).2.bytes (targetAddress p o + i)
        = o.original[i] := by
    intro i hi
    rw [hb, ha]
    simpa using storeBytes_inside _ (targetAddress p o) o.original i hi
  have _ := hon
  exact ⟨(readMemory_eq_iff _ _ _).2 hpt, hpt⟩

/-- Witness of C1 on the sample opcode and process. -/
theorem applyOpcode_on_off_restores_original_witness :
    (applyOpcode sampleOpcode true sampleProcess).1 = true ∧
    (applyOpcode sampleOpcode false (applyOpcode sampleOpcode true sampleProcess).2).1 = true ∧
    readMemory (applyOpcode sampleOpcode false (applyOpcode sampleOpcode true sampleProcess).2).2
      (targetAddress sampleProcess sampleOpcode) sampleOpcode.original.length
        = sampleOpcode.original :=
  ⟨by decide, by decide,
    (applyOpcode_on_off_restores_original sampleOpcode sampleProcess (by decide) (by decide)).1⟩


theorem verifyOpcode_after_original (o : Opcode) (p : Process)
    (hoff : (applyOpcode o false p).1 = true) :
    verifyOpcode o (applyOpcode o false p).2 = true := by
  rw [verifyOpcode_eq_true_iff, applyOpcode_targetAddress, applyOpcode_bytes_of_success o false p hoff]
  intro i hi
  simpa using storeBytes_inside _ (targetAddress p o) o.original i hi

theorem verifyOpcode_after_patched_of_differ (o : Opcode) (p : Process)
    (hon : (applyOpcode o true p).1 = true)
    (hdiff : ∃ i, ∃ (hp : i < o.patched.length) (ho : i < o.original.length),
      o.patched[i] ≠ o.original[i]) :
    verifyOpcode o (applyOpcode o true p).2 = false := by
  obtain ⟨i, hp, ho, hne⟩ := hdiff
  rw [Bool.eq_false_iff]
  intro hv
  rw [verifyOpcode_eq_true_iff, applyOpcode_targetAddress,
    applyOpcode_bytes_of_success o true p hon] at hv
  have h1 := hv i ho
  have h2 : storeBytes p.bytes (targetAddress p o) o.patched (targetAddress p o + i)
      = o.patched[i] := storeBytes_inside _ _ _ i hp
  simp only [if_true] at h1
  rw [h2] at h1
  exact hne h1

theorem exists_differ_of_ne_of_length_eq {α : Type} (xs ys : List α)
    (hlen : xs.length = ys.length) (hne : xs ≠ ys) :
    ∃ i, ∃ (hx : i < xs.length) (hy : i < ys.length), xs[i] ≠ ys[i] := by
  by_contra hcon
  apply hne
  apply List.ext_getElem hlen
  intro i hx hy
  by_contra hxy
  exact hcon ⟨i, hx, hy, hxy⟩

/-- C2 (counterexample): `longerPatchOpcode` has `patched = [0x00, 0x90]` and
`original = [0x00]`, so `patched ≠ original`; `applyOpcode(opcode, true)` succeeds on the
sample process, and `verifyOpcode` called right after it reads one byte, `0x00`, and
returns true. -/
theorem verifyOpcode_after_patched_counterexample :
    longerPatchOpcode.patched ≠ longerPatchOpcode.original ∧
    (applyOpcode longerPatchOpcode true sampleProcess).1 = true ∧
    verifyOpcode longerPatchOpcode (applyOpcode longerPatchOpcode true sampleProcess).2 = true := by
  refine ⟨by decide, by decide, by decide⟩

/-- C2 (amended): `verifyOpcode(opcode)` right after a successful `applyOpcode(opcode, false)`
returns true; right after a successful `applyOpcode(opcode, true)` it returns false when
`patched` and `original` differ at an index present in both, in particular when they have
the same length and differ. -/
theorem verifyOpcode_after_apply (o : Opcode) (p : Process) :
    ((applyOpcode o false p).1 = true → verifyOpcode o (applyOpcode o false p).2 = true) ∧
    ((applyOpcode o true p).1 = true →
      (∃ i, ∃ (hp : i < o.patched.length) (ho : i < o.original.length),
        o.patched[i] ≠ o.original[i]) →
      verifyOpcode o (applyOpcode o true p).2 = false) ∧
    ((applyOpcode o true p).1 = true → o.patched.length = o.original.length →
      o.patched ≠ o.original → verifyOpcode o (applyOpcode o true p).2 = false) :=
  ⟨verifyOpcode_after_original o p,
   verifyOpcode_after_patched_of_differ o p,
   fun hon hlen hne =>
     verifyOpcode_after_patched_of_differ o p hon
       (exists_differ_of_ne_of_length_eq _ _ hlen hne)⟩

/-- Witness of C2 (amended) on the sample opcode and process. -/
theorem verifyOpcode_after_apply_witness :
    verifyOpcode sampleOpcode (applyOpcode sampleOpcode false sampleProcess).2 = true ∧
    verifyOpcode sampleOpcode (applyOpcode sampleOpcode true sampleProcess).2 = false ∧
    verifyOpcode sampleOpcode (applyOpcode sampleOpcode true sampleProcess).2 = false :=
  ⟨(verifyOpcode_after_apply sampleOpcode sampleProcess).1 (by decide),
   (verifyOpcode_after_apply sampleOpcode sampleProcess).2.1 (by decide)
     ⟨0, by decide, by decide, by decide⟩,
   (verifyOpcode_after_apply sampleOpcode sampleProcess).2.2 (by decide) (by decide)
     (by decide)⟩


/-! ## Reading opcodes from a definition -/



theorem readOpcode_eq_ok_iff (E : Externals) (json : Json) (o : Opcode) :
    readOpcode E json = .ok o ↔
      ∃ addrStr onStr offStr,
        (json.atKey "addr" >>= Json.getString) = .ok addrStr ∧
        (json.atKey "on" >>= Json.getString) = .ok onStr ∧
        (json.atKey "off" >>= Json.getString) = .ok offStr ∧
        E.hexToBytes onStr = .ok o.patched ∧
        E.hexToBytes offStr = .ok o.original ∧
        readLibrary json = .ok o.library ∧
        E.hexToAddr addrStr = .ok o.address := by
  unfold readOpcode
  simp only [bind, Except.bind, pure, Except.pure]
  cases h1 : json.atKey "addr" with
  | error e => simp
  | ok v1 =>
  cases h2 : v1.getString with
  | error e => simp [h2]
  | ok a =>
  cases h3 : json.atKey "on" with
  | error e => simp [h2]
  | ok v2 =>
  cases h4 : v2.getString with
  | error e => simp [h2, h4]
  | ok n =>
  cases h5 : json.atKey "off" with
  | error e => simp [h2, h4]
  | ok v3 =>
  cases h6 : v3.getString with
  | error e => simp [h2, h4, h6]
  | ok f =>
  cases h7 : E.hexToBytes n with
  | error e => simp [h2, h4, h6, h7]
  | ok bn =>
  cases h8 : E.hexToBytes f with
  | error e => simp [h2, h4, h6, h7, h8]
  | ok bf =>
  cases h9 : readLibrary json with
  | error e => simp [h2, h4, h6, h7, h8]
  | ok lib =>
  cases h10 : E.hexToAddr a with
  | error e => simp [h2, h4, h6, h7, h8, h10]
  | ok ad =>
  simp [h2, h4, h6, h7, h8, h10]
  constructor
  · rintro rfl
    exact ⟨rfl, rfl, rfl, rfl⟩
  · rintro ⟨h1, h2, h3, h4⟩
    cases o
    simp_all

/-- C3 (counterexample): for the static definition
`{"addr": "10", "on": "00 90", "off": "00"}` the function `readOpcode` does not fail: it
returns an opcode with one original byte and two patched bytes. -/
theorem readOpcode_mismatched_lengths_counterexample :
    readOpcode sampleExternals mismatchedOpcodeJson = .ok longerPatchOpcode ∧
    longerPatchOpcode.original.length = 1 ∧ longerPatchOpcode.patched.length = 2 ∧
    longerPatchOpcode.original.length ≠ longerPatchOpcode.patched.length :=
  ⟨rfl, rfl, rfl, by decide⟩

/-- C3 (amended): `readOpcode` compares no lengths. For a static definition whose members
`addr`, `on` and `off` are strings that `hexToAddr` and `hexToBytes` decode, it returns
the opcode made of the decoded address, the library, the decoded `off` bytes as `original`
and the decoded `on` bytes as `patched`, whatever the two lengths are; so the returned
opcode has `len(original) == len(patched)` exactly when the decoded sequences have the
same length. -/
theorem readOpcode_returns_decoded_bytes (E : Externals) (json : Json)
    (addrStr onStr offStr lib : String) (onBytes offBytes : List Byte) (addr : Nat)
    (haddr : (json.atKey "addr" >>= Json.getString) = .ok addrStr)
    (hon : (json.atKey "on" >>= Json.getString) = .ok onStr)
    (hoff : (json.atKey "off" >>= Json.getString) = .ok offStr)
    (hOn : E.hexToBytes onStr = .ok onBytes)
    (hOff : E.hexToBytes offStr = .ok offBytes)
    (hlib : readLibrary json = .ok lib)
    (hAddr : E.hexToAddr addrStr = .ok addr) :
    readOpcode E json
        = .ok { address := addr, library := lib, original := offBytes, patched := onBytes } ∧
    ∀ o, readOpcode E json = .ok o →
      (o.original.length = o.patched.length ↔ offBytes.length = onBytes.length) := by
  have hmain : readOpcode E json
      = .ok { address := addr, library := lib, original := offBytes, patched := onBytes } :=
    (readOpcode_eq_ok_iff E json _).2 ⟨addrStr, onStr, offStr, haddr, hon, hoff, hOn, hOff, hlib, hAddr⟩
  refine ⟨hmain, ?_⟩
  intro o ho
  rw [hmain] at ho
  cases ho
  exact Iff.rfl

/-- Witness of C3 (amended): the definition with two `on` bytes and one `off` byte. -/
theorem readOpcode_returns_decoded_bytes_witness :
    readOpcode sampleExternals mismatchedOpcodeJson
      = .ok { address := 0x10, library := "", original := [0x00], patched := [0x00, 0x90] } :=
  (readOpcode_returns_decoded_bytes sampleExternals mismatchedOpcodeJson "10" "00 90" "00" ""
    [0x00, 0x90] [0x00] 0x10 rfl rfl rfl rfl rfl rfl rfl).1

/-! ## The toggle component -/

theorem applyOpcode_writes (o : Opcode) (enable : Bool) (p : Process) :
    (applyOpcode o enable p).2.writes
      = p.writes ++ [(targetAddress p o, if enable then o.patched else o.original)] := by
  unfold applyOpcode
  exact patchMemory_writes _ _ _

theorem applyOpcode_writable (o : Opcode) (enable : Bool) (p : Process) :
    (applyOpcode o enable p).2.writable = p.writable := by
  unfold applyOpcode
  exact patchMemory_writable _ _ _

theorem applyLoop_targetAddress (enable : Bool) (ops : List Opcode) (success : Bool)
    (p : Process) (o : Opcode) :
    targetAddress (applyLoop enable ops success p).2 o = targetAddress p o := by
  induction ops generalizing success p with
  | nil => rfl
  | cons x rest ih =>
    simp only [applyLoop]
    rw [ih, applyOpcode_targetAddress]

theorem applyLoop_writes (enable : Bool) (ops : List Opcode) (success : Bool) (p : Process) :
    (applyLoop enable ops success p).2.writes
      = p.writes ++ ops.map
          (fun o => (targetAddress p o, if enable then o.patched else o.original)) := by
  induction ops generalizing success p with
  | nil => simp [applyLoop]
  | cons x rest ih =>
    simp only [applyLoop]
    rw [ih, applyOpcode_writes]
    simp [applyOpcode_targetAddress]

theorem applyPatch_of_warning (c : ToggleComponent) (enable : Bool) (p : Process)
    (hw : c.m_hasWarning = true) : c.applyPatch enable p = (false, p) := by
  simp [ToggleComponent.applyPatch, hw]

theorem Config.get_set_same (cfg : Config) (key : String) (value dflt : Bool) :
    (cfg.set key value).get key dflt = value := by
  simp [Config.get, Config.set]

theorem Config.get_set_other (cfg : Config) (key other : String) (value dflt : Bool)
    (h : other ≠ key) : (cfg.set key value).get other dflt = cfg.get other dflt := by
  simp [Config.get, Config.set, h]


theorem unsupportedInv_onInit (c : ToggleComponent) (cfg : Config) (p : Process)
    (hw : c.m_hasWarning = true) :
    UnsupportedInv c p { comp := (c.onInit cfg p).1, cfg := cfg, proc := (c.onInit cfg p).2 } := by
  unfold ToggleComponent.onInit
  by_cases hget : cfg.get ("hack." ++ c.m_id) false = true
  · simp only [hget, if_true]
    refine ⟨hw, rfl, ?_, hget⟩
    simp [ToggleComponent.applyPatchCurrent, ToggleComponent.applyPatch, hw]
  · simp only [hget]
    refine ⟨hw, rfl, rfl, ?_⟩
    simpa using hget

theorem onDraw_of_warning (c : ToggleComponent) (click : Bool) (cfg : Config) (p : Process)
    (hw : c.m_hasWarning = true) : c.onDraw click cfg p = (c, cfg, p) := by
  cases c
  simp only at hw
  simp [ToggleComponent.onDraw, checkbox, hw]

theorem unsupportedInv_step (c : ToggleComponent) (p : Process) (s : ToggleState)
    (ev : ToggleEvent) (h : UnsupportedInv c p s) : UnsupportedInv c p (s.step ev) := by
  obtain ⟨hw, hid, hp, hst⟩ := h
  cases ev with
  | draw click =>
    simp only [ToggleState.step, onDraw_of_warning _ click _ _ hw]
    exact ⟨hw, hid, hp, hst⟩
  | toggle =>
    simp only [ToggleState.step, ToggleComponent.toggled, ToggleComponent.applyPatchCurrent,
      applyPatch_of_warning _ _ _ hw]
    exact ⟨hw, hid, hp, Config.get_set_same _ _ _ _⟩

theorem unsupportedInv_lifecycle (c : ToggleComponent) (cfg : Config) (p : Process)
    (events : List ToggleEvent) (hw : c.m_hasWarning = true) :
    UnsupportedInv c p (lifecycle c cfg p events) := by
  have h0 := unsupportedInv_onInit c cfg p hw
  show UnsupportedInv c p (events.foldl ToggleState.step
    { comp := (c.onInit cfg p).1, cfg := cfg, proc := (c.onInit cfg p).2 })
  generalize ({ comp := (c.onInit cfg p).1, cfg := cfg, proc := (c.onInit cfg p).2 }
    : ToggleState) = s0 at h0
  induction events generalizing s0 with
  | nil => exact h0
  | cons ev rest ih => exact ih _ (unsupportedInv_step c p s0 ev h0)

theorem toggle_step_cfg (s : ToggleState) :
    (s.step .toggle).cfg = s.cfg.set ("hack." ++ s.comp.m_id) s.comp.m_enabled := rfl

theorem unsupportedInv_entry (c : ToggleComponent) (p : Process) (s : ToggleState)
    (h : UnsupportedInv c p s) :
    s.cfg.entries ("hack." ++ s.comp.m_id) = some s.comp.m_enabled ∨
      (s.cfg.entries ("hack." ++ s.comp.m_id) = none ∧ s.comp.m_enabled = false) := by
  have hst := h.stored
  unfold Config.get at hst
  cases hent : s.cfg.entries ("hack." ++ s.comp.m_id) with
  | none =>
    rw [hent] at hst
    exact Or.inr ⟨rfl, by simpa using hst.symm⟩
  | some b =>
    rw [hent] at hst
    exact Or.inl (by simpa using hst)

/-- C4 (counterexample): the unsupported sample toggle with nothing stored under
`"hack.noclip"`. After `onInit` its enabled flag is false; a `toggled()` call then stores
the flag: the entry, absent before the call, holds false after it, so a read of the key
with the default true returns true before the call and false after it. -/
theorem unsupported_toggle_store_counterexample :
    unsupportedToggle.m_hasWarning = true ∧
    (lifecycle unsupportedToggle emptyConfig sampleProcess []).cfg.entries "hack.noclip"
      = none ∧
    ((lifecycle unsupportedToggle emptyConfig sampleProcess []).step .toggle).cfg.entries
      "hack.noclip" = some false ∧
    (lifecycle unsupportedToggle emptyConfig sampleProcess []).cfg.get "hack.noclip" true
      = true ∧
    ((lifecycle unsupportedToggle emptyConfig sampleProcess []).step .toggle).cfg.get
      "hack.noclip" true = false := by
  refine ⟨rfl, by decide, by decide, by decide, by decide⟩

/-- C4 (amended): for a toggle component whose warning flag is set, in every state that
`onInit` followed by any draws and toggle calls leads to: `applyPatch` returns false and
leaves the process as it is, write record included, so `applyOpcode` is called on no
opcode; a `toggled()` call leaves the process and the component, enabled flag included,
as they are, but it is not without effect: it stores the enabled flag under
`"hack." + id` and leaves every other key alone. Before the call the entry of that key is
either the enabled flag or absent with the flag false, so a read with the default false
returns the same value after the call as before it, and the entry itself is unchanged
exactly when a value was stored before; an absent entry becomes a stored false. A frame
drawn with a click on the checkbox changes nothing at all. -/
theorem unsupported_toggle_writes_nothing_stores_flag (c : ToggleComponent) (cfg : Config)
    (p : Process) (events : List ToggleEvent) (hw : c.m_hasWarning = true) :
    (∀ enable, (lifecycle c cfg p events).comp.applyPatch enable (lifecycle c cfg p events).proc
        = (false, (lifecycle c cfg p events).proc)) ∧
    ((lifecycle c cfg p events).step .toggle).proc = (lifecycle c cfg p events).proc ∧
    ((lifecycle c cfg p events).step .toggle).proc.writes = p.writes ∧
    ((lifecycle c cfg p events).step .toggle).comp = (lifecycle c cfg p events).comp ∧
    ((lifecycle c cfg p events).step .toggle).cfg.entries ("hack." ++ c.m_id)
        = some (lifecycle c cfg p events).comp.m_enabled ∧
    (∀ key, key ≠ "hack." ++ c.m_id →
      ((lifecycle c cfg p events).step .toggle).cfg.entries key
        = (lifecycle c cfg p events).cfg.entries key) ∧
    ((lifecycle c cfg p events).cfg.entries ("hack." ++ c.m_id)
        = some (lifecycle c cfg p events).comp.m_enabled ∨
      ((lifecycle c cfg p events).cfg.entries ("hack." ++ c.m_id) = none ∧
        (lifecycle c cfg p events).comp.m_enabled = false)) ∧
    ((lifecycle c cfg p events).step .toggle).cfg.get ("hack." ++ c.m_id) false
        = (lifecycle c cfg p events).cfg.get ("hack." ++ c.m_id) false ∧
    (((lifecycle c cfg p events).step .toggle).cfg.entries ("hack." ++ c.m_id)
        = (lifecycle c cfg p events).cfg.entries ("hack." ++ c.m_id) ↔
      (lifecycle c cfg p events).cfg.entries ("hack." ++ c.m_id) ≠ none) ∧
    (∀ click, ((lifecycle c cfg p events).step (.draw click)).comp
          = (lifecycle c cfg p events).comp ∧
        ((lifecycle c cfg p events).step (.draw click)).cfg = (lifecycle c cfg p events).cfg ∧
        ((lifecycle c cfg p events).step (.draw click)).proc
          = (lifecycle c cfg p events).proc) := by
  have hinv := unsupportedInv_lifecycle c cfg p events hw
  have hnext := unsupportedInv_step c p _ ToggleEvent.toggle hinv
  have hentry := unsupportedInv_entry c p _ hinv
  generalize lifecycle c cfg p events = s at hinv hnext hentry
  obtain ⟨hsw, hid, hp, hst⟩ := hinv
  rw [hid] at hentry hst
  have hset : (s.step .toggle).cfg.entries ("hack." ++ c.m_id) = some s.comp.m_enabled := by
    rw [toggle_step_cfg, hid]
    simp [Config.set]
  refine ⟨fun enable => applyPatch_of_warning _ _ _ hsw, ?_, ?_, rfl, hset, ?_, hentry, ?_, ?_,
    ?_⟩
  · rw [hnext.process, hp]
  · rw [hnext.process]
  · intro key hkey
    rw [toggle_step_cfg, hid]
    simp [Config.set, hkey]
  · have h1 := hnext.stored
    have h2 : (s.step ToggleEvent.toggle).comp = s.comp := rfl
    rw [h2, hid] at h1
    rw [h1, hst]
  · rw [hset]
    rcases hentry with h | ⟨h, _⟩
    · rw [h]
      simp
    · rw [h]
      simp
  · intro click
    simp [ToggleState.step, onDraw_of_warning _ click _ _ hsw]

/-- Witness of C4 (amended): the unsupported sample toggle, stored as enabled, after
`onInit`, a clicked frame and a toggle call: a further toggle call records no write and
leaves the stored entry as it is. -/
theorem unsupported_toggle_writes_nothing_stores_flag_witness :
    unsupportedToggle.m_hasWarning = true ∧
    ((lifecycle unsupportedToggle noclipOnConfig sampleProcess [.draw true, .toggle]).step
        .toggle).proc.writes = [] ∧
    ((lifecycle unsupportedToggle noclipOnConfig sampleProcess [.draw true, .toggle]).step
        .toggle).cfg.entries "hack.noclip"
      = some (lifecycle unsupportedToggle noclipOnConfig sampleProcess
          [.draw true, .toggle]).comp.m_enabled ∧
    ((lifecycle unsupportedToggle noclipOnConfig sampleProcess [.draw true, .toggle]).step
        .toggle).cfg.get "hack.noclip" false
      = (lifecycle unsupportedToggle noclipOnConfig sampleProcess
          [.draw true, .toggle]).cfg.get "hack.noclip" false :=
  ⟨rfl,
   (unsupported_toggle_writes_nothing_stores_flag unsupportedToggle noclipOnConfig
      sampleProcess [.draw true, .toggle] rfl).2.2.1,
   (unsupported_toggle_writes_nothing_stores_flag unsupportedToggle noclipOnConfig
      sampleProcess [.draw true, .toggle] rfl).2.2.2.2.1,
   (unsupported_toggle_writes_nothing_stores_flag unsupportedToggle noclipOnConfig
      sampleProcess [.draw true, .toggle] rfl).2.2.2.2.2.2.2.1⟩

/-- C6: `toggled()` stores the enabled flag of the component under `"hack." + id`, so a
`config::get` of that key right afterwards returns it whatever the default; this holds
when applying the opcodes succeeded and when it failed. A click on the checkbox of a
supported component flips the flag and stores the flipped value. -/
theorem toggled_stores_enabled (c : ToggleComponent) (cfg : Config) (p : Process)
    (dflt : Bool) :
    (c.toggled cfg p).1.get ("hack." ++ c.m_id) dflt = c.m_enabled ∧
    ((c.applyPatchCurrent p).1 = false →
      (c.toggled cfg p).1.get ("hack." ++ c.m_id) dflt = c.m_enabled) ∧
    (c.m_hasWarning = false →
      (c.onDraw true cfg p).1.m_enabled = !c.m_enabled ∧
      (c.onDraw true cfg p).2.1.get ("hack." ++ c.m_id) dflt = !c.m_enabled) := by
  have h : (c.toggled cfg p).1.get ("hack." ++ c.m_id) dflt = c.m_enabled := by
    unfold ToggleComponent.toggled
    exact Config.get_set_same _ _ _ _
  refine ⟨h, fun _ => h, ?_⟩
  intro hw
  simp only [ToggleComponent.onDraw, checkbox, hw, ToggleComponent.toggled]
  simp [Config.get_set_same]

/-- Witness of C6: in a process where no write succeeds, applying the sample toggle fails
and the flag is stored all the same; a click stores the flipped flag. -/
theorem toggled_stores_enabled_witness :
    (sampleToggle.applyPatchCurrent lockedProcess).1 = false ∧
    (sampleToggle.toggled emptyConfig lockedProcess).1.get "hack.noclip" true = false ∧
    (sampleToggle.onDraw true emptyConfig sampleProcess).2.1.get "hack.noclip" false = true :=
  ⟨by decide,
   (toggled_stores_enabled sampleToggle emptyConfig lockedProcess true).2.1 (by decide),
   ((toggled_stores_enabled sampleToggle emptyConfig sampleProcess false).2.2 rfl).2⟩


/-- C10 (counterexample): the unsupported sample toggle owns one opcode and is stored as
enabled; `onInit` sets its enabled flag to true and no write is attempted, so its opcode
is not applied although the stored value is true. -/
theorem onInit_unsupported_counterexample :
    noclipOnConfig.get ("hack." ++ unsupportedToggle.m_id) false = true ∧
    unsupportedToggle.m_opcodes = [sampleOpcode] ∧
    (unsupportedToggle.onInit noclipOnConfig sampleProcess).1.m_enabled = true ∧
    (unsupportedToggle.onInit noclipOnConfig sampleProcess).2.writes = [] := by
  refine ⟨by decide, rfl, by decide, by decide⟩

/-- C10 (amended): `onInit` sets enabled to the boolean stored under `"hack." + id` (false
when nothing is stored) and changes no other member; when that value is true and the
warning flag is not set it attempts exactly one write per owned opcode, of the patched
bytes at the opcode's address, in list order; when the value is false or the warning flag
is set it attempts no write and leaves the process as it is. -/
theorem onInit_loads_flag_and_applies (c : ToggleComponent) (cfg : Config) (p : Process) :
    (c.onInit cfg p).1 = { c with m_enabled := cfg.get ("hack." ++ c.m_id) false } ∧
    (c.onInit cfg p).2.writes
      = p.writes ++
          (if cfg.get ("hack." ++ c.m_id) false = true ∧ c.m_hasWarning = false then
            c.m_opcodes.map (fun o => (targetAddress p o, o.patched))
          else []) ∧
    (cfg.get ("hack." ++ c.m_id) false = false ∨ c.m_hasWarning = true →
      (c.onInit cfg p).2 = p) := by
  unfold ToggleComponent.onInit
  by_cases hget : cfg.get ("hack." ++ c.m_id) false = true
  · by_cases hw : c.m_hasWarning = true
    · simp [hget, hw, ToggleComponent.applyPatchCurrent, ToggleComponent.applyPatch]
    · simp only [hget, if_true, ToggleComponent.applyPatchCurrent, ToggleComponent.applyPatch,
        hw, if_false]
      refine ⟨trivial, ?_, ?_⟩
      · simp [applyLoop_writes]
      · intro h
        simp [hw] at h
  · simp [hget]

/-- Witness of C10 (amended): the sample toggle stored as enabled gets its patched bytes
written at `0x1010`; when nothing is stored the process is left as it is. -/
theorem onInit_loads_flag_and_applies_witness :
    (sampleToggle.onInit noclipOnConfig sampleProcess).2.writes
      = [(0x1010, [0x90, 0x90])] ∧
    (sampleToggle.onInit emptyConfig sampleProcess).2 = sampleProcess :=
  ⟨(onInit_loads_flag_and_applies sampleToggle noclipOnConfig sampleProcess).2.1,
   (onInit_loads_flag_and_applies sampleToggle emptyConfig sampleProcess).2.2 (Or.inl rfl)⟩


/-! ## Switching a component on and off -/

theorem applyLoop_success_init (enable : Bool) (ops : List Opcode) (success : Bool)
    (p : Process) (h : (applyLoop enable ops success p).1 = true) : success = true := by
  induction ops generalizing success p with
  | nil => simpa [applyLoop] using h
  | cons x rest ih =>
    simp only [applyLoop] at h
    have h1 := ih _ _ h
    by_cases hx : (applyOpcode x enable p).1 = true
    · simpa [hx] using h1
    · simp [hx] at h1

theorem applyLoop_success_head (enable : Bool) (x : Opcode) (rest : List Opcode)
    (success : Bool) (p : Process) (h : (applyLoop enable (x :: rest) success p).1 = true) :
    (applyOpcode x enable p).1 = true := by
  simp only [applyLoop] at h
  have h1 := applyLoop_success_init _ _ _ _ h
  by_cases hx : (applyOpcode x enable p).1 = true
  · exact hx
  · simp [hx] at h1

theorem applyLoop_bytes_of_success (enable : Bool) (ops : List Opcode) (success : Bool)
    (p : Process) (h : (applyLoop enable ops success p).1 = true) :
    (applyLoop enable ops success p).2.bytes = storeAll enable (targetAddress p) ops p.bytes := by
  induction ops generalizing success p with
  | nil => rfl
  | cons x rest ih =>
    have hx := applyLoop_success_head enable x rest success p h
    simp only [applyLoop] at h ⊢
    rw [ih _ _ h, applyOpcode_bytes_of_success x enable p hx]
    have haddr : targetAddress (applyOpcode x enable p).2 = targetAddress p :=
      funext (applyOpcode_targetAddress x enable p)
    rw [haddr]
    rfl

theorem storeAll_original_eq (addr : Opcode → Nat) (M : Nat → Byte) (a : Nat)
    (ops : List Opcode) (m : Nat → Byte)
    (hver : ∀ o ∈ ops, ∀ i (h : i < o.original.length), M (addr o + i) = o.original[i])
    (hcase : m a = M a ∨ ∃ o ∈ ops, addr o ≤ a ∧ a < addr o + o.original.length) :
    storeAll false addr ops m a = M a := by
  induction ops generalizing m with
  | nil =>
    rcases hcase with h | ⟨o, ho, _⟩
    · exact h
    · cases ho
  | cons x rest ih =>
    have hrest : ∀ o ∈ rest, ∀ i (h : i < o.original.length), M (addr o + i) = o.original[i] :=
      fun o ho => hver o (List.mem_cons_of_mem _ ho)
    show storeAll false addr rest (storeBytes m (addr x) x.original) a = M a
    apply ih _ hrest
    by_cases hin : addr x ≤ a ∧ a < addr x + x.original.length
    · left
      have hi : a - addr x < x.original.length := by omega
      have h1 := storeBytes_inside m (addr x) x.original (a - addr x) hi
      have h2 := hver x (List.mem_cons_self _ _) (a - addr x) hi
      have h3 : addr x + (a - addr x) = a := by omega
      rw [h3] at h1 h2
      rw [h1, h2]
    · have hout : storeBytes m (addr x) x.original a = m a :=
        storeBytes_outside _ _ _ _ (by omega)
      rcases hcase with h | ⟨o, ho, hr⟩
      · left
        rw [hout, h]
      · rcases List.mem_cons.1 ho with rfl | ho'
        · exact absurd hr hin
        · exact Or.inr ⟨o, ho', hr⟩

theorem storeAll_patched_untouched (addr : Opcode → Nat) (a : Nat) (ops : List Opcode)
    (m : Nat → Byte)
    (hout : ∀ o ∈ ops, ¬ (addr o ≤ a ∧ a < addr o + o.patched.length)) :
    storeAll true addr ops m a = m a := by
  induction ops generalizing m with
  | nil => rfl
  | cons x rest ih =>
    show storeAll true addr rest (storeBytes m (addr x) x.patched) a = m a
    rw [ih _ (fun o ho => hout o (List.mem_cons_of_mem _ ho))]
    have hx := hout x (List.mem_cons_self _ _)
    exact storeBytes_outside _ _ _ _ (by omega)

/-- C5 (counterexample): the toggle with the single opcode `original = [0x00]`,
`patched = [0x00, 0x90]` has no warning and its opcode verifies against the all-zero
memory of the sample process; `applyPatch(true)` and then `applyPatch(false)` both succeed,
and the byte at `0x1011`, written by the patch and not by the restore, stays `0x90`. -/
theorem applyPatch_on_off_counterexample :
    longerPatchToggle.m_hasWarning = false ∧
    (∀ o ∈ longerPatchToggle.m_opcodes, verifyOpcode o sampleProcess = true) ∧
    (longerPatchToggle.applyPatch true sampleProcess).1 = true ∧
    (longerPatchToggle.applyPatch false (longerPatchToggle.applyPatch true sampleProcess).2).1
      = true ∧
    sampleProcess.bytes 0x1011 = 0x00 ∧
    (longerPatchToggle.applyPatch false
      (longerPatchToggle.applyPatch true sampleProcess).2).2.bytes 0x1011 = 0x90 := by
  refine ⟨rfl, by decide, by decide, by decide, rfl, by decide⟩

/-- C5 (amended): for a toggle component without warning whose opcodes all verify against
the memory of the process and none of whose opcodes has more patched than original bytes
(as when the two lengths are equal), `applyPatch(true)` followed by `applyPatch(false)`,
both returning true, leaves the memory as it was at every address; the address ranges of
the opcodes may overlap. -/
theorem applyPatch_on_off_restores_memory (c : ToggleComponent) (p : Process)
    (hw : c.m_hasWarning = false)
    (hver : ∀ o ∈ c.m_opcodes, verifyOpcode o p = true)
    (hlen : ∀ o ∈ c.m_opcodes, o.patched.length ≤ o.original.length)
    (hon : (c.applyPatch true p).1 = true)
    (hoff : (c.applyPatch false (c.applyPatch true p).2).1 = true) :
    (c.applyPatch false (c.applyPatch true p).2).2.bytes = p.bytes := by
  simp only [ToggleComponent.applyPatch, hw, Bool.false_eq_true, if_false] at hon hoff ⊢
  have h1 := applyLoop_bytes_of_success true c.m_opcodes true p hon
  have h2 := applyLoop_bytes_of_success false c.m_opcodes true _ hoff
  have haddr : targetAddress (applyLoop true c.m_opcodes true p).2 = targetAddress p :=
    funext (applyLoop_targetAddress true c.m_opcodes true p)
  rw [h2, haddr, h1]
  funext a
  apply storeAll_original_eq
  · intro o ho
    exact (verifyOpcode_eq_true_iff o p).1 (hver o ho)
  · by_cases hcov : ∃ o ∈ c.m_opcodes,
        targetAddress p o ≤ a ∧ a < targetAddress p o + o.original.length
    · exact Or.inr hcov
    · left
      apply storeAll_patched_untouched
      intro o ho hr
      have hl := hlen o ho
      exact hcov ⟨o, ho, hr.1, by omega⟩

/-- Witness of C5 (amended): two opcodes that overlap in the byte at `0x1011`. -/
theorem applyPatch_on_off_restores_memory_witness :
    (overlappingToggle.applyPatch true sampleProcess).2.bytes 0x1011 = 0x02 ∧
    (overlappingToggle.applyPatch false
      (overlappingToggle.applyPatch true sampleProcess).2).2.bytes = sampleProcess.bytes :=
  ⟨by decide,
   applyPatch_on_off_restores_memory overlappingToggle sampleProcess rfl (by decide)
     (by decide) (by decide) (by decide)⟩


/-! ## The order of the components of a window -/

theorem stringLess_iff_lex (a b : List Char) :
    stringLess a b = true ↔ List.Lex (· < ·) a b := by
  induction a generalizing b with
  | nil =>
    cases b with
    | nil => simp [stringLess]
    | cons y ys => simp [stringLess, List.Lex.nil]
  | cons x xs ih =>
    cases b with
    | nil => simp [stringLess]
    | cons y ys =>
      simp only [stringLess]
      by_cases h1 : x < y
      · simp [h1, List.Lex.rel h1]
      · by_cases h2 : y < x
        · simp only [h1, h2, if_true, if_false, Bool.false_eq_true, false_iff]
          intro h
          cases h with
          | rel h => exact h1 h
          | cons h => exact lt_irrefl _ h2
        · have hxy : x = y := le_antisymm (not_lt.1 h2) (not_lt.1 h1)
          subst hxy
          simp only [h1, if_false, ih]
          exact (List.Lex.cons_iff).symm

theorem stringLess_iff_lt (a b : String) : stringLess a.data b.data = true ↔ a < b := by
  rw [stringLess_iff_lex, String.lt_iff_toList_lt]
  rfl

theorem nameLess_eq_false_iff (E : Externals) (a b : Component) :
    nameLess E b a = false ↔ lowerName (a.getName E) ≤ lowerName (b.getName E) := by
  rw [← not_lt, ← stringLess_iff_lt, Bool.not_eq_true]
  rfl


theorem toggleOnInit_targetAddress (t : ToggleComponent) (cfg : Config) (p : Process) (o : Opcode) :
    targetAddress (t.onInit cfg p).2 o = targetAddress p o := by
  simp only [ToggleComponent.onInit]
  split
  · simp only [ToggleComponent.applyPatchCurrent, ToggleComponent.applyPatch]
    split
    · rfl
    · exact applyLoop_targetAddress _ _ _ _ _
  · rfl

theorem Component.onInit_keeps_targetAddress (c : Component) (cfg : Config) (p : Process)
    (o : Opcode) : targetAddress (c.onInit cfg p).2 o = targetAddress p o := by
  cases c with
  | toggle t => exact toggleOnInit_targetAddress t cfg p o
  | text m_text => rfl

theorem Component.onInit_fst (c : Component) (cfg : Config) (p : Process) :
    (c.onInit cfg p).1 = c.withStoredFlag cfg := by
  cases c with
  | toggle t =>
    simp only [Component.onInit, Component.withStoredFlag, ToggleComponent.onInit]
    split <;> rfl
  | text m_text => rfl

theorem Component.initWrites_congr (c : Component) (cfg : Config) (p q : Process)
    (h : ∀ o, targetAddress q o = targetAddress p o) : c.initWrites cfg q = c.initWrites cfg p := by
  cases c with
  | toggle t => simp [Component.initWrites, h]
  | text m_text => rfl

theorem Component.onInit_writes (c : Component) (cfg : Config) (p : Process) :
    (c.onInit cfg p).2.writes = p.writes ++ c.initWrites cfg p := by
  cases c with
  | toggle t =>
    simp only [Component.onInit, Component.initWrites]
    by_cases hget : cfg.get ("hack." ++ t.m_id) false = true
    · by_cases hw : t.m_hasWarning = true
      · simp [ToggleComponent.onInit, hget, hw, ToggleComponent.applyPatchCurrent,
          ToggleComponent.applyPatch]
      · simp [ToggleComponent.onInit, hget, hw, ToggleComponent.applyPatchCurrent,
          ToggleComponent.applyPatch, applyLoop_writes]
    · simp [ToggleComponent.onInit, hget]
  | text m_text => simp [Component.onInit, Component.initWrites]

theorem Component.withStoredFlag_getName (E : Externals) (cfg : Config) (c : Component) :
    (c.withStoredFlag cfg).getName E = c.getName E := by
  cases c <;> rfl

theorem initComponents_fst (cfg : Config) (l : List Component) (p : Process) :
    (initComponents cfg l p).1 = l.map (Component.withStoredFlag cfg) := by
  induction l generalizing p with
  | nil => rfl
  | cons c rest ih => simp [initComponents, ih, Component.onInit_fst]

theorem initComponents_targetAddress (cfg : Config) (l : List Component) (p : Process)
    (o : Opcode) : targetAddress (initComponents cfg l p).2 o = targetAddress p o := by
  induction l generalizing p with
  | nil => rfl
  | cons c rest ih =>
    simp only [initComponents]
    rw [ih, Component.onInit_keeps_targetAddress]

theorem initComponents_writes (cfg : Config) (l : List Component) (p : Process) :
    (initComponents cfg l p).2.writes
      = p.writes ++ l.flatMap (Component.initWrites cfg p) := by
  induction l generalizing p with
  | nil => simp [initComponents]
  | cons c rest ih =>
    simp only [initComponents, List.flatMap_cons]
    rw [ih, Component.onInit_writes, List.append_assoc]
    congr 2
    apply List.flatMap_congr
    intro x _
    exact Component.initWrites_congr x cfg p _ (Component.onInit_keeps_targetAddress c cfg p)

theorem sampleSort_perm (less : Component → Component → Bool) (l : List Component) :
    (sampleSort less l).Perm l :=
  List.perm_insertionSort _ l

theorem sampleSort_sorted (E : Externals) (l : List Component) :
    (sampleSort (nameLess E) l).Pairwise (fun a b => nameLess E b a = false) := by
  haveI : IsTotal Component (fun a b => nameLess E b a = false) :=
    ⟨fun a b => by
      simp only [nameLess_eq_false_iff]
      exact le_total _ _⟩
  haveI : IsTrans Component (fun a b => nameLess E b a = false) :=
    ⟨fun a b c => by
      simp only [nameLess_eq_false_iff]
      exact le_trans⟩
  exact List.sorted_insertionSort (fun a b => nameLess E b a = false) l


theorem loadWindow_eq_ok (E : Externals) (cfg : Config) (p : Process) (json : Json)
    (title : String) (items : Json) (comps : List Component)
    (htitle : (json.atKey "title" >>= Json.getString) = .ok title)
    (hitems : json.atKey "items" = .ok items)
    (hloop : itemLoop E p items.elements [] = .ok comps) :
    loadWindow E cfg p json
      = .ok ({ title := title,
               components := (initComponents cfg (E.stdSort (nameLess E) comps) p).1 },
             (initComponents cfg (E.stdSort (nameLess E) comps) p).2) := by
  unfold loadWindow sortedComponents
  simp only [bind, Except.bind, pure, Except.pure] at htitle ⊢
  cases h1 : json.atKey "title" with
  | error e => simp [h1] at htitle
  | ok v =>
    simp only [h1] at htitle
    simp [htitle, hitems, hloop]

/-- C7: when the definition of a window has a title and items that load into the
components `comps`, and `std::sort` returns a sorted permutation of `comps` for the
comparison of `initialize`, then `loadWindow` returns a window whose component list is
the sorted vector with the stored flags loaded by `onInit`: the sorted vector is a
permutation of `comps`, the list is in non-decreasing order of the lower-cased names, and
`onInit` runs on the sorted vector in list order, as the writes it attempts show. -/
theorem loadWindow_components_sorted (E : Externals) (cfg : Config) (p : Process)
    (json : Json) (title : String) (items : Json) (comps : List Component)
    (hperm : (E.stdSort (nameLess E) comps).Perm comps)
    (hsorted : (E.stdSort (nameLess E) comps).Pairwise (fun a b => nameLess E b a = false))
    (htitle : (json.atKey "title" >>= Json.getString) = .ok title)
    (hitems : json.atKey "items" = .ok items)
    (hloop : itemLoop E p items.elements [] = .ok comps) :
    loadWindow E cfg p json
      = .ok ({ title := title,
               components :=
                 (E.stdSort (nameLess E) comps).map (Component.withStoredFlag cfg) },
             (initComponents cfg (E.stdSort (nameLess E) comps) p).2) ∧
    (E.stdSort (nameLess E) comps).Perm comps ∧
    ((E.stdSort (nameLess E) comps).map (Component.withStoredFlag cfg)).Pairwise
      (fun a b => lowerName (a.getName E) ≤ lowerName (b.getName E)) ∧
    (initComponents cfg (E.stdSort (nameLess E) comps) p).2.writes
      = p.writes ++ (E.stdSort (nameLess E) comps).flatMap (Component.initWrites cfg p) := by
  refine ⟨?_, hperm, ?_, initComponents_writes _ _ _⟩
  · rw [loadWindow_eq_ok E cfg p json title items comps htitle hitems hloop,
      initComponents_fst]
  · rw [List.pairwise_map]
    refine hsorted.imp ?_
    intro a b hab
    rw [Component.withStoredFlag_getName, Component.withStoredFlag_getName]
    exact (nameLess_eq_false_iff E a b).1 hab

/-- Witness of C7: the definition with the toggle `Noclip` before the text `apple` yields
the names `apple`, `Noclip` in this order. -/
theorem loadWindow_components_sorted_witness :
    ((sampleSort (nameLess sampleExternals) noclipAppleComponents).map
        (Component.withStoredFlag noclipOnConfig)).map (Component.getName sampleExternals)
      = ["apple", "Noclip"] ∧
    loadWindow sampleExternals noclipOnConfig sampleProcess noclipAppleJson
      = .ok ({ title := "Player",
               components := (sampleSort (nameLess sampleExternals) noclipAppleComponents).map
                 (Component.withStoredFlag noclipOnConfig) },
             (initComponents noclipOnConfig
               (sampleSort (nameLess sampleExternals) noclipAppleComponents) sampleProcess).2) :=
  ⟨by decide,
   (loadWindow_components_sorted sampleExternals noclipOnConfig sampleProcess noclipAppleJson
      "Player" _ noclipAppleComponents (sampleSort_perm _ _)
      (sampleSort_sorted sampleExternals _) rfl rfl rfl).1⟩

/-! ## The loops of the loader -/

theorem opcodeBody_skip (E : Externals) (p : Process) (e : Json) (acc : OpcodeAcc)
    (h : versionSkips E e = .ok true) : opcodeBody E p e acc = .ok (.next acc) := by
  simp [opcodeBody, h, bind, Except.bind, pure, Except.pure]

theorem opcodeBody_static (E : Externals) (p : Process) (e : Json) (acc : OpcodeAcc)
    (o : Opcode) (hgate : versionSkips E e = .ok false) (hpat : e.contains "pattern" = false)
    (hread : readOpcode E e = .ok o) :
    opcodeBody E p e acc = .ok (.next (pushVerified p acc o)) := by
  simp [opcodeBody, hgate, hpat, hread, bind, Except.bind, pure, Except.pure]

theorem bind_getString_eq_ok (r : Except String Json) (v : String)
    (h : (r >>= Json.getString) = .ok v) : ∃ j, r = .ok j ∧ j.getString = .ok v := by
  cases r with
  | error e => simp [bind, Except.bind] at h
  | ok j => exact ⟨j, rfl, by simpa [bind, Except.bind] using h⟩

theorem opcodeBody_pattern (E : Externals) (p : Process) (e : Json) (acc : OpcodeAcc)
    (pattern mask library : String) (opc : List Opcode)
    (hgate : versionSkips E e = .ok false) (hpat : e.contains "pattern" = true)
    (hpattern : (e.atKey "pattern" >>= Json.getString) = .ok pattern)
    (hmask : (e.atKey "mask" >>= Json.getString) = .ok mask)
    (hlib : readLibrary e = .ok library)
    (hmatch : E.patternsMatch pattern mask library p = .ok opc) :
    opcodeBody E p e acc
      = .ok (if opc.isEmpty then .stop { acc with warn := true }
             else .next (pushMatches p opc acc)) := by
  obtain ⟨j1, h1, h1'⟩ := bind_getString_eq_ok _ _ hpattern
  obtain ⟨j2, h2, h2'⟩ := bind_getString_eq_ok _ _ hmask
  simp only [opcodeBody, hgate, hpat, h1, h1', h2, h2', hlib, hmatch, bind, Except.bind,
    pure, Except.pure]
  cases opc <;> simp

theorem opcodeBody_cases (E : Externals) (p : Process) (e : Json) (acc : OpcodeAcc)
    (f : Flow OpcodeAcc) (h : opcodeBody E p e acc = .ok f) :
    (versionSkips E e = .ok true ∧ f = .next acc) ∨
    (∃ o, EntryLoads E p e [o] ∧ e.contains "pattern" = false ∧
      f = .next (pushVerified p acc o)) ∨
    (EntryFindsNothing E p e ∧ f = .stop { acc with warn := true }) ∨
    (∃ opc, EntryLoads E p e opc ∧ e.contains "pattern" = true ∧
      f = .next (pushMatches p opc acc)) := by
  cases hgate : versionSkips E e with
  | error x => simp [opcodeBody, hgate, bind, Except.bind] at h
  | ok b =>
    cases b with
    | true =>
      rw [opcodeBody_skip E p e acc hgate] at h
      cases h
      exact Or.inl ⟨rfl, rfl⟩
    | false =>
      by_cases hpat : e.contains "pattern" = true
      · cases h1 : e.atKey "pattern" with
        | error x => simp [opcodeBody, hgate, hpat, h1, bind, Except.bind, pure, Except.pure] at h
        | ok j1 =>
        cases h1' : j1.getString with
        | error x =>
          simp [opcodeBody, hgate, hpat, h1, h1', bind, Except.bind, pure, Except.pure] at h
        | ok pattern =>
        cases h2 : e.atKey "mask" with
        | error x =>
          simp [opcodeBody, hgate, hpat, h1, h1', h2, bind, Except.bind, pure, Except.pure] at h
        | ok j2 =>
        cases h2' : j2.getString with
        | error x =>
          simp [opcodeBody, hgate, hpat, h1, h1', h2, h2', bind, Except.bind, pure,
            Except.pure] at h
        | ok mask =>
        cases hlib : readLibrary e with
        | error x =>
          simp [opcodeBody, hgate, hpat, h1, h1', h2, h2', hlib, bind, Except.bind, pure,
            Except.pure] at h
        | ok library =>
        cases hmatch : E.patternsMatch pattern mask library p with
        | error x =>
          simp [opcodeBody, hgate, hpat, h1, h1', h2, h2', hlib, hmatch, bind, Except.bind,
            pure, Except.pure] at h
        | ok opc =>
          have hpattern : (e.atKey "pattern" >>= Json.getString) = .ok pattern := by
            simp [h1, h1', bind, Except.bind]
          have hmask : (e.atKey "mask" >>= Json.getString) = .ok mask := by
            simp [h2, h2', bind, Except.bind]
          rw [opcodeBody_pattern E p e acc pattern mask library opc hgate hpat hpattern hmask
            hlib hmatch] at h
          cases opc with
          | nil =>
            simp at h
            exact Or.inr (Or.inr (Or.inl
              ⟨⟨hgate, hpat, pattern, mask, library, hpattern, hmask, hlib, hmatch⟩, h.symm⟩))
          | cons o os =>
            simp at h
            exact Or.inr (Or.inr (Or.inr ⟨o :: os,
              ⟨hgate, Or.inr ⟨hpat, by simp, pattern, mask, library, hpattern, hmask, hlib,
                hmatch⟩⟩, hpat, h.symm⟩))
      · have hpat' : e.contains "pattern" = false := by simpa using hpat
        cases hread : readOpcode E e with
        | error x =>
          simp [opcodeBody, hgate, hpat', hread, bind, Except.bind, pure, Except.pure] at h
        | ok o =>
          rw [opcodeBody_static E p e acc o hgate hpat' hread] at h
          cases h
          exact Or.inr (Or.inl ⟨o, ⟨hgate, Or.inl ⟨hpat', o, hread, rfl⟩⟩, hpat', rfl⟩)

theorem pushMatches_append (p : Process) (xs ys : List Opcode) (acc : OpcodeAcc) :
    pushMatches p (xs ++ ys) acc = pushMatches p ys (pushMatches p xs acc) := by
  induction xs generalizing acc with
  | nil => rfl
  | cons x rest ih => simp [pushMatches, ih]

theorem pushMatches_opcodes (p : Process) (opc : List Opcode) (acc : OpcodeAcc) :
    (pushMatches p opc acc).opcodes = acc.opcodes ++ opc := by
  induction opc generalizing acc with
  | nil => simp [pushMatches]
  | cons x rest ih => simp [pushMatches, ih, pushVerified]

theorem pushMatches_warn_of_warn (p : Process) (opc : List Opcode) (acc : OpcodeAcc)
    (h : acc.warn = true) : (pushMatches p opc acc).warn = true := by
  induction opc generalizing acc with
  | nil => exact h
  | cons x rest ih =>
    apply ih
    simp [pushVerified, h]

theorem pushMatches_warn_of_fail (p : Process) (opc : List Opcode) (acc : OpcodeAcc)
    (h : ∃ o ∈ opc, verifyOpcode o p = false) : (pushMatches p opc acc).warn = true := by
  induction opc generalizing acc with
  | nil =>
    obtain ⟨o, ho, _⟩ := h
    cases ho
  | cons x rest ih =>
    obtain ⟨o, ho, hv⟩ := h
    rcases List.mem_cons.1 ho with rfl | ho'
    · show (pushMatches p rest (pushVerified p acc o)).warn = true
      apply pushMatches_warn_of_warn
      simp [pushVerified, hv]
    · exact ih _ ⟨o, ho', hv⟩

theorem pushMatches_verifiedOrWarned (p : Process) (opc : List Opcode) (acc : OpcodeAcc)
    (h : VerifiedOrWarned p acc) : VerifiedOrWarned p (pushMatches p opc acc) := by
  intro hex
  obtain ⟨o, ho, hv⟩ := hex
  rw [pushMatches_opcodes] at ho
  rcases List.mem_append.1 ho with h1 | h2
  · exact pushMatches_warn_of_warn p opc acc (h ⟨o, h1, hv⟩)
  · exact pushMatches_warn_of_fail p opc acc ⟨o, h2, hv⟩

theorem opcodeBody_loads (E : Externals) (p : Process) (e : Json) (acc : OpcodeAcc)
    (os : List Opcode) (h : EntryLoads E p e os) :
    opcodeBody E p e acc = .ok (.next (pushMatches p os acc)) := by
  obtain ⟨hgate, hcase⟩ := h
  rcases hcase with ⟨hpat, o, hread, rfl⟩ | ⟨hpat, hne, pattern, mask, library, h1, h2, h3, h4⟩
  · exact opcodeBody_static E p e acc o hgate hpat hread
  · rw [opcodeBody_pattern E p e acc pattern mask library os hgate hpat h1 h2 h3 h4]
    cases os with
    | nil => exact absurd rfl hne
    | cons x xs => simp

theorem opcodeBody_findsNothing (E : Externals) (p : Process) (e : Json) (acc : OpcodeAcc)
    (h : EntryFindsNothing E p e) :
    opcodeBody E p e acc = .ok (.stop { acc with warn := true }) := by
  obtain ⟨hgate, hpat, pattern, mask, library, h1, h2, h3, h4⟩ := h
  rw [opcodeBody_pattern E p e acc pattern mask library [] hgate hpat h1 h2 h3 h4]
  simp

theorem opcodeBody_warn_sticky (E : Externals) (p : Process) (e : Json) (acc : OpcodeAcc)
    (f : Flow OpcodeAcc) (h : opcodeBody E p e acc = .ok f) (hw : acc.warn = true) :
    f.state.warn = true := by
  rcases opcodeBody_cases E p e acc f h with ⟨_, rfl⟩ | ⟨o, _, _, rfl⟩ | ⟨_, rfl⟩ | ⟨opc, _, _, rfl⟩
  · exact hw
  · simp [Flow.state, pushVerified, hw]
  · rfl
  · exact pushMatches_warn_of_warn p opc acc hw

theorem opcodeBody_verifiedOrWarned (E : Externals) (p : Process) (e : Json) (acc : OpcodeAcc)
    (f : Flow OpcodeAcc) (h : opcodeBody E p e acc = .ok f) (hinv : VerifiedOrWarned p acc) :
    VerifiedOrWarned p f.state := by
  rcases opcodeBody_cases E p e acc f h with ⟨_, rfl⟩ | ⟨o, _, _, rfl⟩ | ⟨_, rfl⟩ | ⟨opc, _, _, rfl⟩
  · exact hinv
  · exact pushMatches_verifiedOrWarned p [o] acc hinv
  · intro _
    rfl
  · exact pushMatches_verifiedOrWarned p opc acc hinv

theorem opcodeRun_cons_next (E : Externals) (p : Process) (e : Json) (rest : List Json)
    (acc acc1 : OpcodeAcc) (h : opcodeBody E p e acc = .ok (.next acc1)) :
    opcodeRun E p (e :: rest) acc = opcodeRun E p rest acc1 := by
  simp [opcodeRun, h]

theorem opcodeRun_cons_stop (E : Externals) (p : Process) (e : Json) (rest : List Json)
    (acc acc1 : OpcodeAcc) (h : opcodeBody E p e acc = .ok (.stop acc1)) :
    opcodeRun E p (e :: rest) acc = .ok (.stop acc1) := by
  simp [opcodeRun, h]

theorem opcodeRun_append_next (E : Externals) (p : Process) (front rest : List Json)
    (acc s : OpcodeAcc) (h : opcodeRun E p front acc = .ok (.next s)) :
    opcodeRun E p (front ++ rest) acc = opcodeRun E p rest s := by
  induction front generalizing acc with
  | nil =>
    simp only [opcodeRun] at h
    cases h
    rfl
  | cons e es ih =>
    simp only [opcodeRun, List.cons_append] at h ⊢
    cases hb : opcodeBody E p e acc with
    | error x => simp [hb] at h
    | ok f =>
      cases f with
      | stop a => simp [hb] at h
      | next a =>
        simp only [hb] at h ⊢
        exact ih a h

theorem opcodeRun_inv (E : Externals) (p : Process) (P : OpcodeAcc → Prop)
    (hbody : ∀ e acc f, opcodeBody E p e acc = .ok f → P acc → P f.state)
    (entries : List Json) (acc : OpcodeAcc) (r : Flow OpcodeAcc)
    (h : opcodeRun E p entries acc = .ok r) (hacc : P acc) : P r.state := by
  induction entries generalizing acc with
  | nil =>
    simp only [opcodeRun] at h
    cases h
    exact hacc
  | cons e es ih =>
    simp only [opcodeRun] at h
    cases hb : opcodeBody E p e acc with
    | error x => simp [hb] at h
    | ok f =>
      have hf := hbody e acc f hb hacc
      cases f with
      | stop a =>
        simp only [hb] at h
        cases h
        exact hf
      | next a =>
        simp only [hb] at h
        exact ih a h hf

theorem opcodeRun_stop_warn (E : Externals) (p : Process) (entries : List Json)
    (acc r : OpcodeAcc) (h : opcodeRun E p entries acc = .ok (.stop r)) : r.warn = true := by
  induction entries generalizing acc with
  | nil => simp [opcodeRun] at h
  | cons e es ih =>
    simp only [opcodeRun] at h
    cases hb : opcodeBody E p e acc with
    | error x => simp [hb] at h
    | ok f =>
      cases f with
      | stop a =>
        simp only [hb] at h
        cases h
        rcases opcodeBody_cases E p e acc _ hb with
          ⟨_, h1⟩ | ⟨o, _, _, h1⟩ | ⟨_, h1⟩ | ⟨opc, _, _, h1⟩
        · cases h1
        · cases h1
        · cases h1
          rfl
        · cases h1
      | next a =>
        simp only [hb] at h
        exact ih a h

theorem opcodeRun_filter (E : Externals) (p : Process) (entries : List Json) (acc : OpcodeAcc) :
    opcodeRun E p entries acc = opcodeRun E p (entries.filter (gateOpen E)) acc := by
  induction entries generalizing acc with
  | nil => rfl
  | cons e es ih =>
    by_cases hg : gateOpen E e = true
    · rw [List.filter_cons_of_pos hg]
      simp only [opcodeRun]
      cases opcodeBody E p e acc with
      | error x => rfl
      | ok f =>
        cases f with
        | stop a => rfl
        | next a => exact ih a
    · have hskip : versionSkips E e = .ok true := by
        unfold gateOpen at hg
        split at hg
        · assumption
        · exact absurd rfl hg
      rw [List.filter_cons_of_neg hg, opcodeRun_cons_next E p e es acc acc
        (opcodeBody_skip E p e acc hskip)]
      exact ih acc

theorem opcodeRun_loads (E : Externals) (p : Process) (entries : List Json)
    (oss : List (List Opcode)) (acc : OpcodeAcc)
    (h : List.Forall₂ (EntryLoads E p) entries oss) :
    opcodeRun E p entries acc = .ok (.next (pushMatches p oss.flatten acc)) := by
  induction h generalizing acc with
  | nil => rfl
  | cons hhead _ ih =>
    rw [opcodeRun_cons_next E p _ _ acc _ (opcodeBody_loads E p _ acc _ hhead), ih,
      List.flatten_cons, pushMatches_append]


theorem readDescription_keeps (component : Json) (t t1 : ToggleComponent)
    (h : readDescription component t = .ok t1) :
    t1.m_opcodes = t.m_opcodes ∧ t1.m_hasWarning = t.m_hasWarning := by
  unfold readDescription at h
  split at h
  · simp only [bind, Except.bind, pure, Except.pure] at h
    split at h
    · cases h
    · split at h
      · cases h
      · cases h
        exact ⟨rfl, rfl⟩
  · cases h
    exact ⟨rfl, rfl⟩

theorem readCheat_keeps (component : Json) (t t1 : ToggleComponent)
    (h : readCheat component t = .ok t1) :
    t1.m_opcodes = t.m_opcodes ∧ t1.m_hasWarning = t.m_hasWarning := by
  unfold readCheat at h
  split at h
  · simp only [bind, Except.bind, pure, Except.pure] at h
    split at h
    · cases h
    · split at h
      · cases h
      · cases h
        exact ⟨rfl, rfl⟩
  · cases h
    exact ⟨rfl, rfl⟩

theorem readDescription_fields (component : Json) (t t1 : ToggleComponent)
    (h : readDescription component t = .ok t1) :
    t1.m_name = t.m_name ∧ t1.m_id = t.m_id ∧ t1.m_hasWarning = t.m_hasWarning := by
  unfold readDescription at h
  split at h
  · simp only [bind, Except.bind, pure, Except.pure] at h
    split at h
    · cases h
    · split at h
      · cases h
      · cases h
        exact ⟨rfl, rfl, rfl⟩
  · cases h
    exact ⟨rfl, rfl, rfl⟩

theorem readCheat_fields (component : Json) (t t1 : ToggleComponent)
    (h : readCheat component t = .ok t1) :
    t1.m_name = t.m_name ∧ t1.m_id = t.m_id ∧ t1.m_hasWarning = t.m_hasWarning := by
  unfold readCheat at h
  split at h
  · simp only [bind, Except.bind, pure, Except.pure] at h
    split at h
    · cases h
    · split at h
      · cases h
      · cases h
        exact ⟨rfl, rfl, rfl⟩
  · cases h
    exact ⟨rfl, rfl, rfl⟩

theorem loadToggle_eq_ok (E : Externals) (p : Process) (item : Json) (t : ToggleComponent)
    (h : loadToggle E p item = .ok t) :
    ∃ entries r, item.atKey "opcodes" = .ok entries ∧
      opcodeRun E p entries.elements { opcodes := [], warn := false } = .ok r ∧
      t.m_opcodes = r.state.opcodes ∧
      t.m_hasWarning = (if r.state.opcodes.isEmpty then true else r.state.warn) := by
  unfold loadToggle at h
  simp only [bind, Except.bind, pure, Except.pure] at h
  cases h1 : item.atKey "title" with
  | error x => simp [h1] at h
  | ok j1 =>
  cases h1' : j1.getString with
  | error x => simp [h1, h1'] at h
  | ok title =>
  cases h2 : item.atKey "id" with
  | error x => simp [h1, h1', h2] at h
  | ok j2 =>
  cases h2' : j2.getString with
  | error x => simp [h1, h1', h2, h2'] at h
  | ok id =>
  cases h3 : item.atKey "opcodes" with
  | error x => simp [h1, h1', h2, h2', h3] at h
  | ok entries =>
  cases h4 : opcodeRun E p entries.elements { opcodes := [], warn := false } with
  | error x => simp [h1, h1', h2, h2', h3, h4] at h
  | ok r =>
  simp only [h1, h1', h2, h2', h3, h4] at h
  split at h
  · cases h
  · rename_i t1 h5
    split at h
    · cases h
    · rename_i t2 h6
      cases h
      obtain ⟨a1, a2⟩ := readDescription_keeps _ _ _ h5
      obtain ⟨b1, b2⟩ := readCheat_keeps _ _ _ h6
      refine ⟨entries, r, rfl, h4, by rw [b1, a1], ?_⟩
      rw [b2, a2]

theorem loadToggle_of_parts (E : Externals) (p : Process) (item entries : Json)
    (title id : String) (r : Flow OpcodeAcc) (t1 t : ToggleComponent)
    (htitle : (item.atKey "title" >>= Json.getString) = .ok title)
    (hid : (item.atKey "id" >>= Json.getString) = .ok id)
    (hentries : item.atKey "opcodes" = .ok entries)
    (hrun : opcodeRun E p entries.elements { opcodes := [], warn := false } = .ok r)
    (hdesc : readDescription item
      { m_name := title, m_id := id, m_opcodes := r.state.opcodes,
        m_hasWarning := if r.state.opcodes.isEmpty then true else r.state.warn } = .ok t1)
    (hcheat : readCheat item t1 = .ok t) :
    loadToggle E p item = .ok t := by
  obtain ⟨j1, h1, h1'⟩ := bind_getString_eq_ok _ _ htitle
  obtain ⟨j2, h2, h2'⟩ := bind_getString_eq_ok _ _ hid
  unfold loadToggle
  simp only [bind, Except.bind, pure, Except.pure, h1, h1', h2, h2', hentries, hrun, hdesc,
    hcheat]

theorem itemBody_skip (E : Externals) (p : Process) (item : Json) (acc : List Component)
    (h : versionSkips E item = .ok true) : itemBody E p item acc = .ok acc := by
  simp [itemBody, h, bind, Except.bind, pure, Except.pure]

theorem itemLoop_cons (E : Externals) (p : Process) (item : Json) (rest : List Json)
    (acc next : List Component) (h : itemBody E p item acc = .ok next) :
    itemLoop E p (item :: rest) acc = itemLoop E p rest next := by
  simp [itemLoop, h]

theorem itemLoop_filter (E : Externals) (p : Process) (items : List Json)
    (acc : List Component) :
    itemLoop E p items acc = itemLoop E p (items.filter (gateOpen E)) acc := by
  induction items generalizing acc with
  | nil => rfl
  | cons e es ih =>
    by_cases hg : gateOpen E e = true
    · rw [List.filter_cons_of_pos hg]
      simp only [itemLoop]
      cases itemBody E p e acc with
      | error x => rfl
      | ok next => exact ih next
    · have hskip : versionSkips E e = .ok true := by
        unfold gateOpen at hg
        split at hg
        · assumption
        · exact absurd rfl hg
      rw [List.filter_cons_of_neg hg, itemLoop_cons E p e es acc acc
        (itemBody_skip E p e acc hskip)]
      exact ih acc

theorem Json.contains_of_atKey (j v : Json) (key : String) (h : j.atKey key = .ok v) :
    j.contains key = true := by
  cases j with
  | obj members =>
    simp only [Json.atKey] at h
    split at h
    · rename_i m hm
      simp only [Json.contains, List.any_eq_true]
      have hkey : (m.1 == key) = true :=
        List.find?_some (p := fun m : String × Json => m.1 == key) hm
      exact ⟨m, List.mem_of_find?_eq_some hm, hkey⟩
    · cases h
  | null => cases h
  | bool b => cases h
  | num n => cases h
  | str x => cases h
  | arr xs => cases h

theorem versionSkips_of_no_version (E : Externals) (e : Json)
    (h : e.contains "version" = false) : versionSkips E e = .ok false := by
  simp [versionSkips, h, pure, Except.pure]

theorem versionSkips_of_version (E : Externals) (e : Json) (version : String)
    (h : (e.atKey "version" >>= Json.getString) = .ok version) :
    versionSkips E e = .ok (!E.compareVersion version) := by
  obtain ⟨j, h1, h2⟩ := bind_getString_eq_ok _ _ h
  simp [versionSkips, Json.contains_of_atKey e j "version" h1, h1, h2, bind, Except.bind, pure,
    Except.pure]

theorem gateOpen_eq_false_iff (E : Externals) (e : Json) :
    gateOpen E e = false ↔ versionSkips E e = .ok true := by
  unfold gateOpen
  constructor
  · intro h
    split at h
    · assumption
    · cases h
  · intro h
    simp [h]

theorem gateOpen_of_passes (E : Externals) (e : Json) (h : versionSkips E e = .ok false) :
    gateOpen E e = true := by
  simp [gateOpen, h]

theorem itemBody_yields (E : Externals) (p : Process) (item : Json) (acc : List Component)
    (cs : List Component) (h : ItemYields E p item cs) :
    itemBody E p item acc = .ok (acc ++ cs) := by
  obtain ⟨hgate, type, htype, hcase⟩ := h
  obtain ⟨j1, h1, h1'⟩ := bind_getString_eq_ok _ _ htype
  rcases hcase with ⟨rfl, text, htext, rfl⟩ | ⟨rfl, t, hload, rfl⟩ | ⟨hn1, hn2, rfl⟩
  · obtain ⟨j2, h2, h2'⟩ := bind_getString_eq_ok _ _ htext
    simp [itemBody, hgate, h1, h1', h2, h2', bind, Except.bind, pure, Except.pure]
  · simp [itemBody, hgate, h1, h1', hload, bind, Except.bind, pure, Except.pure]
  · simp [itemBody, hgate, h1, h1', hn1, hn2, bind, Except.bind, pure, Except.pure]

theorem itemBody_cases (E : Externals) (p : Process) (item : Json) (acc next : List Component)
    (h : itemBody E p item acc = .ok next) :
    (versionSkips E item = .ok true ∧ next = acc) ∨
    (∃ cs, ItemYields E p item cs ∧ next = acc ++ cs) := by
  cases hgate : versionSkips E item with
  | error x => simp [itemBody, hgate, bind, Except.bind] at h
  | ok b =>
    cases b with
    | true =>
      rw [itemBody_skip E p item acc hgate] at h
      cases h
      exact Or.inl ⟨rfl, rfl⟩
    | false =>
      right
      cases h1 : item.atKey "type" with
      | error x => simp [itemBody, hgate, h1, bind, Except.bind, pure, Except.pure] at h
      | ok j1 =>
      cases h1' : j1.getString with
      | error x => simp [itemBody, hgate, h1, h1', bind, Except.bind, pure, Except.pure] at h
      | ok type =>
      have htype : (item.atKey "type" >>= Json.getString) = .ok type := by
        simp [h1, h1', bind, Except.bind]
      by_cases ht1 : type = "text"
      · subst ht1
        cases h2 : item.atKey "text" with
        | error x =>
          simp [itemBody, hgate, h1, h1', h2, bind, Except.bind, pure, Except.pure] at h
        | ok j2 =>
        cases h2' : j2.getString with
        | error x =>
          simp [itemBody, hgate, h1, h1', h2, h2', bind, Except.bind, pure, Except.pure] at h
        | ok text =>
          have htext : (item.atKey "text" >>= Json.getString) = .ok text := by
            simp [h2, h2', bind, Except.bind]
          have hy : ItemYields E p item [.text text] :=
            ⟨hgate, "text", htype, Or.inl ⟨rfl, text, htext, rfl⟩⟩
          rw [itemBody_yields E p item acc _ hy] at h
          cases h
          exact ⟨_, hy, rfl⟩
      · by_cases ht2 : type = "toggle"
        · subst ht2
          cases hload : loadToggle E p item with
          | error x =>
            simp [itemBody, hgate, h1, h1', hload, bind, Except.bind, pure, Except.pure] at h
          | ok t =>
            have hy : ItemYields E p item [.toggle t] :=
              ⟨hgate, "toggle", htype, Or.inr (Or.inl ⟨rfl, t, hload, rfl⟩)⟩
            rw [itemBody_yields E p item acc _ hy] at h
            cases h
            exact ⟨_, hy, rfl⟩
        · have hy : ItemYields E p item [] :=
            ⟨hgate, type, htype, Or.inr (Or.inr ⟨ht1, ht2, rfl⟩)⟩
          rw [itemBody_yields E p item acc _ hy] at h
          cases h
          exact ⟨_, hy, rfl⟩

theorem itemLoop_yields (E : Externals) (p : Process) (items : List Json)
    (css : List (List Component)) (acc : List Component)
    (h : List.Forall₂ (ItemYields E p) items css) :
    itemLoop E p items acc = .ok (acc ++ css.flatten) := by
  induction h generalizing acc with
  | nil => simp [itemLoop]
  | cons hhead _ ih =>
    rw [itemLoop_cons E p _ _ acc _ (itemBody_yields E p _ acc _ hhead), ih]
    simp

theorem itemLoop_cases (E : Externals) (p : Process) (items : List Json)
    (acc comps : List Component) (h : itemLoop E p items acc = .ok comps) :
    ∃ css, List.Forall₂ (ItemYields E p) (items.filter (gateOpen E)) css ∧
      comps = acc ++ css.flatten := by
  induction items generalizing acc with
  | nil =>
    simp only [itemLoop] at h
    cases h
    exact ⟨[], List.Forall₂.nil, by simp⟩
  | cons e es ih =>
    simp only [itemLoop] at h
    cases hb : itemBody E p e acc with
    | error x => simp [hb] at h
    | ok next =>
      simp only [hb] at h
      obtain ⟨css, hcss, hcomps⟩ := ih next h
      rcases itemBody_cases E p e acc next hb with ⟨hskip, rfl⟩ | ⟨cs, hy, rfl⟩
      · refine ⟨css, ?_, hcomps⟩
        rw [List.filter_cons_of_neg (by simp [(gateOpen_eq_false_iff E e).2 hskip])]
        exact hcss
      · refine ⟨cs :: css, ?_, ?_⟩
        · rw [List.filter_cons_of_pos (gateOpen_of_passes E e hy.1)]
          exact List.Forall₂.cons hy hcss
        · rw [hcomps]
          simp

theorem opcodeRun_cases (E : Externals) (p : Process) (entries : List Json)
    (acc : OpcodeAcc) (r : Flow OpcodeAcc) (h : opcodeRun E p entries acc = .ok r) :
    (∃ oss, List.Forall₂ (EntryLoads E p) (entries.filter (gateOpen E)) oss ∧
      r = .next (pushMatches p oss.flatten acc)) ∨
    (∃ front e rest oss, entries = front ++ e :: rest ∧
      List.Forall₂ (EntryLoads E p) (front.filter (gateOpen E)) oss ∧
      EntryFindsNothing E p e ∧
      r = .stop { pushMatches p oss.flatten acc with warn := true }) := by
  induction entries generalizing acc with
  | nil =>
    simp only [opcodeRun] at h
    cases h
    exact Or.inl ⟨[], List.Forall₂.nil, rfl⟩
  | cons e es ih =>
    simp only [opcodeRun] at h
    cases hb : opcodeBody E p e acc with
    | error x => simp [hb] at h
    | ok f =>
      have hloads : ∀ os, EntryLoads E p e os → f = .next (pushMatches p os acc) →
          (∃ oss, List.Forall₂ (EntryLoads E p) ((e :: es).filter (gateOpen E)) oss ∧
            r = .next (pushMatches p oss.flatten acc)) ∨
          (∃ front e1 rest oss, e :: es = front ++ e1 :: rest ∧
            List.Forall₂ (EntryLoads E p) (front.filter (gateOpen E)) oss ∧
            EntryFindsNothing E p e1 ∧
            r = .stop { pushMatches p oss.flatten acc with warn := true }) := by
        intro os hl hf
        subst hf
        simp only [hb] at h
        have hopen := gateOpen_of_passes E e hl.1
        rcases ih _ h with ⟨oss, hoss, hr⟩ | ⟨front, e1, rest, oss, hsplit, hoss, hnone, hr⟩
        · refine Or.inl ⟨os :: oss, ?_, ?_⟩
          · rw [List.filter_cons_of_pos hopen]
            exact List.Forall₂.cons hl hoss
          · rw [hr, List.flatten_cons, pushMatches_append]
        · refine Or.inr ⟨e :: front, e1, rest, os :: oss, by rw [hsplit]; rfl, ?_, hnone, ?_⟩
          · rw [List.filter_cons_of_pos hopen]
            exact List.Forall₂.cons hl hoss
          · rw [hr, List.flatten_cons, pushMatches_append]
      rcases opcodeBody_cases E p e acc f hb with
        ⟨hskip, hf⟩ | ⟨o, hl, _, hf⟩ | ⟨hnone, hf⟩ | ⟨opc, hl, _, hf⟩
      · subst hf
        simp only [hb] at h
        have hclosed : ¬ gateOpen E e = true := by
          simp [(gateOpen_eq_false_iff E e).2 hskip]
        rcases ih _ h with ⟨oss, hoss, hr⟩ | ⟨front, e1, rest, oss, hsplit, hoss, hnone, hr⟩
        · refine Or.inl ⟨oss, ?_, hr⟩
          rw [List.filter_cons_of_neg hclosed]
          exact hoss
        · refine Or.inr ⟨e :: front, e1, rest, oss, by rw [hsplit]; rfl, ?_, hnone, hr⟩
          rw [List.filter_cons_of_neg hclosed]
          exact hoss
      · exact hloads [o] hl hf
      · subst hf
        simp only [hb] at h
        cases h
        exact Or.inr ⟨[], e, es, [], rfl, List.Forall₂.nil, hnone, rfl⟩
      · exact hloads opc hl hf

/-- C8 (counterexample): in `lostPatternToggleJson` the second opcode entry carries the
version `2.204`, for which `compareVersion` is true, and `readOpcode` reads it; the first
entry, whose constraint `*` is satisfied too, is a pattern that is found nowhere, so the
loop is left before the second entry and the opcode list of the toggle is empty. -/
theorem version_gate_counterexample :
    (staticEntry204.atKey "version" >>= Json.getString) = .ok "2.204" ∧
    sampleExternals.compareVersion "2.204" = true ∧
    sampleExternals.compareVersion "*" = true ∧
    readOpcode sampleExternals staticEntry204 = .ok staticOpcode204 ∧
    loadToggle sampleExternals sampleProcess lostPatternToggleJson = .ok lostPatternToggle ∧
    lostPatternToggle.m_opcodes = [] :=
  ⟨rfl, rfl, rfl, rfl, rfl, rfl⟩

/-- C8 (amended): an item or opcode entry with a `version` field for which
`compareVersion` is false is skipped and an entry without the field passes the gate. The
loop over the items returns exactly when every item that passes the gate is a text item,
a toggle item that `loadToggle` builds, or an item of another type, and its result is then
the components of the text and toggle items among them, one each, in definition order;
an item of another type adds nothing. The loop over the opcode entries of a toggle loads
the entries that pass the gate in definition order, a static entry giving the opcode read
from it and a pattern entry all its matches; it runs to the end exactly when each of
them loads, and it is left early exactly at the first pattern entry that passes the gate
and matches no address, the later entries not being loaded even when their constraint is
satisfied. So of static opcode definitions of one toggle with different version
constraints exactly those whose constraint is satisfied enter the opcode list, in
definition order. -/
theorem version_gate_selects_entries (E : Externals) (p : Process) :
    (∀ e, e.contains "version" = false → gateOpen E e = true) ∧
    (∀ e version, (e.atKey "version" >>= Json.getString) = .ok version →
      gateOpen E e = E.compareVersion version) ∧
    (∀ item acc, gateOpen E item = false → itemBody E p item acc = .ok acc) ∧
    (∀ e acc, gateOpen E e = false → opcodeBody E p e acc = .ok (.next acc)) ∧
    (∀ items acc comps, itemLoop E p items acc = .ok comps ↔
      ∃ css, List.Forall₂ (ItemYields E p) (items.filter (gateOpen E)) css ∧
        comps = acc ++ css.flatten) ∧
    (∀ entries acc r, opcodeRun E p entries acc = .ok (.next r) ↔
      ∃ oss, List.Forall₂ (EntryLoads E p) (entries.filter (gateOpen E)) oss ∧
        r = pushMatches p oss.flatten acc) ∧
    (∀ entries acc r, opcodeRun E p entries acc = .ok (.stop r) ↔
      ∃ front e rest oss, entries = front ++ e :: rest ∧
        List.Forall₂ (EntryLoads E p) (front.filter (gateOpen E)) oss ∧
        EntryFindsNothing E p e ∧
        r = { pushMatches p oss.flatten acc with warn := true }) ∧
    (∀ (oss : List (List Opcode)) (acc : OpcodeAcc),
      (pushMatches p oss.flatten acc).opcodes = acc.opcodes ++ oss.flatten) := by
  have hstop : ∀ front e rest oss acc,
      List.Forall₂ (EntryLoads E p) (front.filter (gateOpen E)) oss →
      EntryFindsNothing E p e →
      opcodeRun E p (front ++ e :: rest) acc
        = .ok (.stop { pushMatches p oss.flatten acc with warn := true }) := by
    intro front e rest oss acc h hnone
    have h1 : opcodeRun E p front acc = .ok (.next (pushMatches p oss.flatten acc)) := by
      rw [opcodeRun_filter]
      exact opcodeRun_loads E p _ oss acc h
    rw [opcodeRun_append_next E p front (e :: rest) acc _ h1,
      opcodeRun_cons_stop E p e rest _ _ (opcodeBody_findsNothing E p e _ hnone)]
  refine ⟨?_, ?_, ?_, ?_, ?_, ?_, ?_, ?_⟩
  · intro e h
    simp [gateOpen, versionSkips_of_no_version E e h]
  · intro e version h
    rw [gateOpen, versionSkips_of_version E e version h]
    cases E.compareVersion version <;> rfl
  · intro item acc hg
    exact itemBody_skip E p item acc ((gateOpen_eq_false_iff E item).1 hg)
  · intro e acc hg
    exact opcodeBody_skip E p e acc ((gateOpen_eq_false_iff E e).1 hg)
  · intro items acc comps
    constructor
    · exact itemLoop_cases E p items acc comps
    · rintro ⟨css, hcss, rfl⟩
      rw [itemLoop_filter]
      exact itemLoop_yields E p _ css acc hcss
  · intro entries acc r
    constructor
    · intro h
      rcases opcodeRun_cases E p entries acc _ h with ⟨oss, hoss, hr⟩ | ⟨_, _, _, _, _, _, _, hr⟩
      · cases hr
        exact ⟨oss, hoss, rfl⟩
      · cases hr
    · rintro ⟨oss, hoss, rfl⟩
      rw [opcodeRun_filter]
      exact opcodeRun_loads E p _ oss acc hoss
  · intro entries acc r
    constructor
    · intro h
      rcases opcodeRun_cases E p entries acc _ h with
        ⟨_, _, hr⟩ | ⟨front, e, rest, oss, hsplit, hoss, hnone, hr⟩
      · cases hr
      · cases hr
        exact ⟨front, e, rest, oss, hsplit, hoss, hnone, rfl⟩
    · rintro ⟨front, e, rest, oss, rfl, hoss, hnone, rfl⟩
      exact hstop front e rest oss acc hoss hnone
  · intro oss acc
    exact pushMatches_opcodes _ _ _

/-- Witness of C8 (amended): of the static definitions for the versions `2.204` and `2.113`
the first one alone enters the opcode list; of a text for version `2.113`, a text without
constraint and an `embedded` item, the second alone gives a component. -/
theorem version_gate_selects_entries_witness :
    opcodeRun sampleExternals sampleProcess [staticEntry204, staticEntry113]
        { opcodes := [], warn := false }
      = .ok (.next (pushMatches sampleProcess [[staticOpcode204]].flatten
          { opcodes := [], warn := false })) ∧
    (pushMatches sampleProcess [[staticOpcode204]].flatten
        { opcodes := [], warn := false }).opcodes = [] ++ [[staticOpcode204]].flatten ∧
    itemLoop sampleExternals sampleProcess [oldTextJson, helloTextJson, embeddedItemJson] []
      = .ok ([] ++ [[Component.text "Hello"], []].flatten) :=
  ⟨((version_gate_selects_entries sampleExternals sampleProcess).2.2.2.2.2.1
      [staticEntry204, staticEntry113] { opcodes := [], warn := false } _).2
      ⟨[[staticOpcode204]],
        List.Forall₂.cons ⟨rfl, Or.inl ⟨rfl, staticOpcode204, rfl, rfl⟩⟩ List.Forall₂.nil,
        rfl⟩,
   (version_gate_selects_entries sampleExternals sampleProcess).2.2.2.2.2.2.2
      [[staticOpcode204]] { opcodes := [], warn := false },
   ((version_gate_selects_entries sampleExternals sampleProcess).2.2.2.2.1
      [oldTextJson, helloTextJson, embeddedItemJson] [] _).2
      ⟨[[Component.text "Hello"], []],
        List.Forall₂.cons
          ⟨rfl, "text", rfl, Or.inl ⟨rfl, "Hello", rfl, rfl⟩⟩
          (List.Forall₂.cons
            ⟨rfl, "embedded", rfl, Or.inr (Or.inr ⟨by decide, by decide, rfl⟩)⟩
            List.Forall₂.nil),
        rfl⟩⟩

theorem hasWarning_of_warn (t : ToggleComponent) (r : OpcodeAcc)
    (h : t.m_hasWarning = (if r.opcodes.isEmpty then true else r.warn)) (hw : r.warn = true) :
    t.m_hasWarning = true := by
  rw [h, hw]
  simp

theorem bind_getBool_eq_ok (r : Except String Json) (v : Bool)
    (h : (r >>= Json.getBool) = .ok v) : ∃ j, r = .ok j ∧ j.getBool = .ok v := by
  cases r with
  | error e => simp [bind, Except.bind] at h
  | ok j => exact ⟨j, rfl, by simpa [bind, Except.bind] using h⟩

theorem readDescription_returns (item : Json) (base : ToggleComponent)
    (h : item.contains "description" = false ∨
      ∃ d, (item.atKey "description" >>= Json.getString) = .ok d) :
    ∃ t1, readDescription item base = .ok t1 := by
  rcases h with h | ⟨d, hd⟩
  · exact ⟨base, by simp [readDescription, h, pure, Except.pure]⟩
  · obtain ⟨j, h1, h2⟩ := bind_getString_eq_ok _ _ hd
    exact ⟨{ base with m_description := d }, by
      simp [readDescription, Json.contains_of_atKey item j "description" h1, h1, h2, bind,
        Except.bind, pure, Except.pure]⟩

theorem readCheat_returns (item : Json) (base : ToggleComponent)
    (h : item.contains "cheat" = false ∨
      ∃ b, (item.atKey "cheat" >>= Json.getBool) = .ok b) :
    ∃ t1, readCheat item base = .ok t1 := by
  rcases h with h | ⟨b, hb⟩
  · exact ⟨base, by simp [readCheat, h, pure, Except.pure]⟩
  · obtain ⟨j, h1, h2⟩ := bind_getBool_eq_ok _ _ hb
    exact ⟨{ base with m_isCheat := b }, by
      simp [readCheat, Json.contains_of_atKey item j "cheat" h1, h1, h2, bind,
        Except.bind, pure, Except.pure]⟩

theorem opcodeRun_stops (E : Externals) (p : Process) (front : List Json) (e : Json)
    (rest : List Json) (oss : List (List Opcode)) (acc : OpcodeAcc)
    (h : List.Forall₂ (EntryLoads E p) (front.filter (gateOpen E)) oss)
    (hnone : EntryFindsNothing E p e) :
    opcodeRun E p (front ++ e :: rest) acc
      = .ok (.stop { pushMatches p oss.flatten acc with warn := true }) := by
  have h1 : opcodeRun E p front acc = .ok (.next (pushMatches p oss.flatten acc)) := by
    rw [opcodeRun_filter]
    exact opcodeRun_loads E p _ oss acc h
  rw [opcodeRun_append_next E p front (e :: rest) acc _ h1,
    opcodeRun_cons_stop E p e rest _ _ (opcodeBody_findsNothing E p e _ hnone)]

theorem opcodeRun_of_readable (E : Externals) (p : Process) (entries : List Json)
    (h : EntriesReadable E p entries) (acc : OpcodeAcc) :
    ∃ r, opcodeRun E p entries acc = .ok r := by
  rcases h with ⟨oss, hoss⟩ | ⟨front, e, rest, oss, rfl, hoss, hnone⟩
  · exact ⟨_, by rw [opcodeRun_filter]; exact opcodeRun_loads E p _ oss acc hoss⟩
  · exact ⟨_, opcodeRun_stops E p front e rest oss acc hoss hnone⟩

theorem opcodeRun_failed_entry (E : Externals) (p : Process) (front : List Json) (e : Json)
    (rest : List Json) (oss : List (List Opcode)) (acc : OpcodeAcc)
    (hfront : List.Forall₂ (EntryLoads E p) (front.filter (gateOpen E)) oss)
    (hfail : EntryFindsNothing E p e ∨
      ((∃ os, EntryLoads E p e os ∧ ∃ o ∈ os, verifyOpcode o p = false) ∧
        EntriesReadable E p rest)) :
    ∃ r, opcodeRun E p (front ++ e :: rest) acc = .ok r ∧ r.state.warn = true := by
  rcases hfail with hnone | ⟨⟨os, hl, hbad⟩, hrest⟩
  · exact ⟨_, opcodeRun_stops E p front e rest oss acc hfront hnone, rfl⟩
  · have h1 : opcodeRun E p front acc = .ok (.next (pushMatches p oss.flatten acc)) := by
      rw [opcodeRun_filter]
      exact opcodeRun_loads E p _ oss acc hfront
    have hb := opcodeBody_loads E p e (pushMatches p oss.flatten acc) os hl
    have hw := pushMatches_warn_of_fail p os (pushMatches p oss.flatten acc) hbad
    obtain ⟨r, hr⟩ := opcodeRun_of_readable E p rest hrest
      (pushMatches p os (pushMatches p oss.flatten acc))
    refine ⟨r, ?_, ?_⟩
    · rw [opcodeRun_append_next E p front (e :: rest) acc _ h1,
        opcodeRun_cons_next E p e rest _ _ hb]
      exact hr
    · exact opcodeRun_inv E p (fun a => a.warn = true)
        (fun e acc f h ha => opcodeBody_warn_sticky E p e acc f h ha) _ _ r hr hw

theorem opcodeBody_failed_entry (E : Externals) (p : Process) (e : Json)
    (hfail : EntryFindsNothing E p e ∨
      ∃ os, EntryLoads E p e os ∧ ∃ o ∈ os, verifyOpcode o p = false) (s : OpcodeAcc) :
    ∃ f, opcodeBody E p e s = .ok f ∧ f.state.warn = true := by
  rcases hfail with hnone | ⟨os, hl, hbad⟩
  · exact ⟨_, opcodeBody_findsNothing E p e s hnone, rfl⟩
  · exact ⟨_, opcodeBody_loads E p e s os hl, pushMatches_warn_of_fail p os s hbad⟩

/-- C9: take a toggle item that passes its gate, has a title and an id, and optional
members of the right type, and an opcode entry `e` of it such that the entries before `e`
load and `e` is a pattern that matches no address, or `e` loads opcodes of which one
fails `verifyOpcode` and the entries after `e` can be processed. Then the failure does not
abort the load: the body of the opcode loop returns at `e` with `warn` set, `loadToggle`
returns a toggle, this toggle has its warning flag set, it is appended to the components
of the window, and the loop over the items goes on with the remaining items. Moreover
every toggle that `loadToggle` builds with an opcode that fails `verifyOpcode` has its
warning flag set. -/
theorem failed_entry_marks_unsupported (E : Externals) (p : Process) (item entries : Json)
    (front : List Json) (e : Json) (rest : List Json) (title id : String)
    (oss : List (List Opcode)) (acc : List Component) (others : List Json)
    (hgate : versionSkips E item = .ok false)
    (htype : (item.atKey "type" >>= Json.getString) = .ok "toggle")
    (htitle : (item.atKey "title" >>= Json.getString) = .ok title)
    (hid : (item.atKey "id" >>= Json.getString) = .ok id)
    (hentries : item.atKey "opcodes" = .ok entries)
    (hsplit : entries.elements = front ++ e :: rest)
    (hfront : List.Forall₂ (EntryLoads E p) (front.filter (gateOpen E)) oss)
    (hfail : EntryFindsNothing E p e ∨
      ((∃ os, EntryLoads E p e os ∧ ∃ o ∈ os, verifyOpcode o p = false) ∧
        EntriesReadable E p rest))
    (hdesc : item.contains "description" = false ∨
      ∃ d, (item.atKey "description" >>= Json.getString) = .ok d)
    (hcheat : item.contains "cheat" = false ∨
      ∃ b, (item.atKey "cheat" >>= Json.getBool) = .ok b) :
    (∀ s, ∃ f, opcodeBody E p e s = .ok f ∧ f.state.warn = true) ∧
    (∃ t, loadToggle E p item = .ok t ∧ t.m_name = title ∧ t.m_id = id ∧
      t.m_hasWarning = true ∧
      itemBody E p item acc = .ok (acc ++ [.toggle t]) ∧
      itemLoop E p (item :: others) acc = itemLoop E p others (acc ++ [.toggle t])) ∧
    (∀ item2 t2, loadToggle E p item2 = .ok t2 →
      (∃ o ∈ t2.m_opcodes, verifyOpcode o p = false) → t2.m_hasWarning = true) := by
  refine ⟨?_, ?_, ?_⟩
  · apply opcodeBody_failed_entry E p e
    rcases hfail with h | ⟨h, _⟩
    · exact Or.inl h
    · exact Or.inr h
  · obtain ⟨r, hrun, hwarn⟩ := opcodeRun_failed_entry E p front e rest oss
      { opcodes := [], warn := false } hfront hfail
    rw [← hsplit] at hrun
    obtain ⟨t1, hd⟩ := readDescription_returns item
      { m_name := title, m_id := id, m_opcodes := r.state.opcodes,
        m_hasWarning := if r.state.opcodes.isEmpty then true else r.state.warn } hdesc
    obtain ⟨t, hc⟩ := readCheat_returns item t1 hcheat
    have hload : loadToggle E p item = .ok t :=
      loadToggle_of_parts E p item entries title id r t1 t htitle hid hentries hrun hd hc
    have hbody : itemBody E p item acc = .ok (acc ++ [.toggle t]) :=
      itemBody_yields E p item acc _
        ⟨hgate, "toggle", htype, Or.inr (Or.inl ⟨rfl, t, hload, rfl⟩)⟩
    have hkeep1 := readDescription_fields _ _ _ hd
    have hkeep2 := readCheat_fields _ _ _ hc
    refine ⟨t, hload, ?_, ?_, ?_, hbody, itemLoop_cons E p item others acc _ hbody⟩
    · rw [hkeep2.1, hkeep1.1]
    · rw [hkeep2.2.1, hkeep1.2.1]
    · rw [hkeep2.2.2, hkeep1.2.2, hwarn]
      simp
  · intro item2 t2 hload2 hex
    obtain ⟨entries2, r2, _, hrun2, hops, hw2⟩ := loadToggle_eq_ok E p item2 t2 hload2
    have hinv : VerifiedOrWarned p r2.state :=
      opcodeRun_inv E p (VerifiedOrWarned p) (opcodeBody_verifiedOrWarned E p) _ _ r2 hrun2
        (by
          intro h0
          obtain ⟨o, ho, _⟩ := h0
          cases ho)
    rw [hops] at hex
    exact hasWarning_of_warn t2 r2.state hw2 (hinv hex)

/-- Witness of C9: the toggle whose first entry expects bytes that the sample process does
not hold is built, with its description and cheat flag, with the warning flag, and the
text item after it is still loaded; the toggle whose pattern is found nowhere is built
with the warning flag too. -/
theorem failed_entry_marks_unsupported_witness :
    (loadToggle sampleExternals sampleProcess staleThenSkippedToggleJson
        = .ok staleThenSkippedToggle ∧
      staleThenSkippedToggle.m_hasWarning = true ∧
      itemLoop sampleExternals sampleProcess [staleThenSkippedToggleJson, helloTextJson] []
        = .ok [.toggle staleThenSkippedToggle, .text "Hello"]) ∧
    (loadToggle sampleExternals sampleProcess lostPatternToggleJson = .ok lostPatternToggle ∧
      lostPatternToggle.m_hasWarning = true) := by
  constructor
  · obtain ⟨t, hload, _, _, hw, _, hloop⟩ :=
      (failed_entry_marks_unsupported sampleExternals sampleProcess staleThenSkippedToggleJson
        (.arr [staleEntry, staticEntry113]) [] staleEntry [staticEntry113] "Noclip" "noclip"
        [] [] [helloTextJson] rfl rfl rfl rfl rfl rfl List.Forall₂.nil
        (Or.inr ⟨⟨[sampleOpcode], ⟨rfl, Or.inl ⟨rfl, sampleOpcode, rfl, rfl⟩⟩, sampleOpcode,
          by decide, by decide⟩, Or.inl ⟨[], List.Forall₂.nil⟩⟩)
        (Or.inr ⟨_, rfl⟩) (Or.inr ⟨_, rfl⟩)).2.1
    have ht : t = staleThenSkippedToggle := Except.ok.inj (hload.symm.trans rfl)
    subst ht
    exact ⟨hload, hw, hloop.trans rfl⟩
  · obtain ⟨t, hload, _, _, hw, _, _⟩ :=
      (failed_entry_marks_unsupported sampleExternals sampleProcess lostPatternToggleJson
        (.arr [lostPatternEntry, staticEntry204]) [] lostPatternEntry [staticEntry204]
        "Speed" "speed" [] [] [] rfl rfl rfl rfl rfl rfl List.Forall₂.nil
        (Or.inl ⟨rfl, rfl, "FF", "x", "", rfl, rfl, rfl, rfl⟩)
        (Or.inl rfl) (Or.inl rfl)).2.1
    have ht : t = lostPatternToggle := Except.ok.inj (hload.symm.trans rfl)
    subst ht
    exact ⟨hload, hw⟩

/-! ## One pass of `applyPatch` -/

theorem applyOpcode_bytes (o : Opcode) (enable : Bool) (p : Process) :
    (applyOpcode o enable p).2.bytes
      = if p.writable (targetAddress p o) (if enable then o.patched else o.original).length then
          storeBytes p.bytes (targetAddress p o) (if enable then o.patched else o.original)
        else p.bytes := by
  by_cases hwr : p.writable (targetAddress p o)
      (if enable then o.patched else o.original).length = true
  · simp [applyOpcode, patchMemory, hwr]
  · simp [applyOpcode, patchMemory, hwr]

theorem applyOpcode_fst (o : Opcode) (enable : Bool) (p : Process) :
    (applyOpcode o enable p).1
      = p.writable (targetAddress p o) (if enable then o.patched else o.original).length := by
  by_cases hwr : p.writable (targetAddress p o)
      (if enable then o.patched else o.original).length = true
  · simp [applyOpcode, patchMemory, hwr]
  · simp [applyOpcode, patchMemory, hwr]

theorem applyLoop_fst (enable : Bool) (ops : List Opcode) (success : Bool) (p : Process) :
    (applyLoop enable ops success p).1 = (success && (callResults enable ops p).all id) := by
  induction ops generalizing success p with
  | nil => simp [applyLoop, callResults]
  | cons x rest ih =>
    simp only [applyLoop, callResults, List.all_cons, id]
    rw [ih]
    cases (applyOpcode x enable p).1 <;> cases success <;> simp

theorem callResults_length (enable : Bool) (ops : List Opcode) (p : Process) :
    (callResults enable ops p).length = ops.length := by
  induction ops generalizing p with
  | nil => rfl
  | cons x rest ih => simp [callResults, ih]

theorem applyLoop_bytes (enable : Bool) (ops : List Opcode) (success : Bool) (p : Process) :
    (applyLoop enable ops success p).2.bytes
      = storeSuccessful enable p.writable (targetAddress p) ops p.bytes := by
  induction ops generalizing success p with
  | nil => rfl
  | cons x rest ih =>
    simp only [applyLoop]
    rw [ih, applyOpcode_writable, applyOpcode_bytes]
    have haddr : targetAddress (applyOpcode x enable p).2 = targetAddress p :=
      funext (applyOpcode_targetAddress x enable p)
    rw [haddr]
    rfl

/-- C13: for a toggle component without warning, `applyPatch(enable)` calls
`applyOpcode(opcode, enable)` once for every owned opcode, in list order, whatever the
earlier calls returned: the record of attempted writes grows by one write per opcode, of
the bytes selected by `enable` at the opcode's address. Nothing is rolled back: the memory
afterwards holds every write that succeeded, in list order. The result is true if and
only if every call returned true. -/
theorem applyPatch_calls_every_opcode (c : ToggleComponent) (enable : Bool) (p : Process)
    (hw : c.m_hasWarning = false) :
    (c.applyPatch enable p).2.writes
      = p.writes ++ c.m_opcodes.map
          (fun o => (targetAddress p o, if enable then o.patched else o.original)) ∧
    (callResults enable c.m_opcodes p).length = c.m_opcodes.length ∧
    ((c.applyPatch enable p).1 = true ↔ ∀ b ∈ callResults enable c.m_opcodes p, b = true) ∧
    (c.applyPatch enable p).2.bytes
      = storeSuccessful enable p.writable (targetAddress p) c.m_opcodes p.bytes := by
  simp only [ToggleComponent.applyPatch, hw, Bool.false_eq_true, if_false]
  refine ⟨applyLoop_writes _ _ _ _, callResults_length _ _ _, ?_, applyLoop_bytes _ _ _ _⟩
  rw [applyLoop_fst]
  simp [List.all_eq_true]

/-- Witness of C13: in a process where the write at `0x1010` fails, the pass over the two
opcodes attempts both writes in order, returns false and leaves the second write in
memory. -/
theorem applyPatch_calls_every_opcode_witness :
    (twoOpcodeToggle.applyPatch true halfLockedProcess).2.writes
      = [(0x1010, [0x01]), (0x1020, [0x02])] ∧
    callResults true twoOpcodeToggle.m_opcodes halfLockedProcess = [false, true] ∧
    (twoOpcodeToggle.applyPatch true halfLockedProcess).1 = false ∧
    (twoOpcodeToggle.applyPatch true halfLockedProcess).2.bytes 0x1020 = 0x02 ∧
    (twoOpcodeToggle.applyPatch true halfLockedProcess).2.bytes 0x1010 = 0x00 :=
  ⟨(applyPatch_calls_every_opcode twoOpcodeToggle true halfLockedProcess rfl).1,
   by decide, by decide, by decide, by decide⟩


/-! ## Toggles without opcodes -/

theorem unsupported_never_writes (t : ToggleComponent) (hw : t.m_hasWarning = true)
    (cfg : Config) (q : Process) (events : List ToggleEvent) :
    (t.onInit cfg q).2 = q ∧ (lifecycle t cfg q events).proc = q :=
  ⟨(unsupportedInv_onInit t cfg q hw).process, (unsupportedInv_lifecycle t cfg q events hw).process⟩

theorem loadToggle_empty_warns (E : Externals) (p : Process) (item : Json)
    (t : ToggleComponent) (hload : loadToggle E p item = .ok t) (hnone : t.m_opcodes = []) :
    t.m_hasWarning = true := by
  obtain ⟨entries, r, _, _, hops, hwarn⟩ := loadToggle_eq_ok E p item t hload
  rw [hwarn, ← hops, hnone]
  rfl

/-- C15: a toggle definition with title and id whose opcode entries are all skipped by
their version constraint (or whose `opcodes` list is empty) is built by `loadToggle`, with
an empty opcode list and the warning flag set, so `onInit` and every later draw or toggle
of it leave the process, write record included, as it is. More generally every toggle that
`loadToggle` builds with an empty opcode list has the warning flag set and never
writes. -/
theorem toggle_without_opcodes_is_unsupported (E : Externals) (p : Process)
    (item entries : Json) (title id : String) (t1 t : ToggleComponent)
    (htitle : (item.atKey "title" >>= Json.getString) = .ok title)
    (hid : (item.atKey "id" >>= Json.getString) = .ok id)
    (hentries : item.atKey "opcodes" = .ok entries)
    (hskipped : entries.elements.filter (gateOpen E) = [])
    (hdesc : readDescription item
      { m_name := title, m_id := id, m_opcodes := [], m_hasWarning := true } = .ok t1)
    (hcheat : readCheat item t1 = .ok t) :
    loadToggle E p item = .ok t ∧ t.m_opcodes = [] ∧ t.m_hasWarning = true ∧
    (∀ cfg q events, (t.onInit cfg q).2 = q ∧ (lifecycle t cfg q events).proc = q ∧
      (lifecycle t cfg q events).proc.writes = q.writes) ∧
    (∀ item2 t2, loadToggle E p item2 = .ok t2 → t2.m_opcodes = [] →
      t2.m_hasWarning = true ∧
      ∀ cfg q events, (t2.onInit cfg q).2 = q ∧ (lifecycle t2 cfg q events).proc = q) := by
  have hrun : opcodeRun E p entries.elements { opcodes := [], warn := false }
      = .ok (.next { opcodes := [], warn := false }) := by
    rw [opcodeRun_filter, hskipped]
    rfl
  have hload : loadToggle E p item = .ok t :=
    loadToggle_of_parts E p item entries title id _ t1 t htitle hid hentries hrun hdesc hcheat
  have ho : t.m_opcodes = [] := by
    rw [(readCheat_keeps _ _ _ hcheat).1, (readDescription_keeps _ _ _ hdesc).1]
  have hw : t.m_hasWarning = true := loadToggle_empty_warns E p item t hload ho
  refine ⟨hload, ho, hw, ?_, ?_⟩
  · intro cfg q events
    have h := unsupported_never_writes t hw cfg q events
    exact ⟨h.1, h.2, by rw [h.2]⟩
  · intro item2 t2 hload2 hnone
    have hw2 := loadToggle_empty_warns E p item2 t2 hload2 hnone
    exact ⟨hw2, fun cfg q events => unsupported_never_writes t2 hw2 cfg q events⟩

/-- Witness of C15: the toggle whose only entry is for version `2.113` is built without
opcodes and with the warning flag; stored as enabled, it writes nothing in `onInit`, in a
clicked frame and in a toggle call. -/
theorem toggle_without_opcodes_is_unsupported_witness :
    loadToggle sampleExternals sampleProcess otherVersionToggleJson = .ok otherVersionToggle ∧
    otherVersionToggle.m_hasWarning = true ∧
    (lifecycle otherVersionToggle iconsOnConfig sampleProcess [.draw true, .toggle]).proc.writes
      = sampleProcess.writes :=
  ⟨(toggle_without_opcodes_is_unsupported sampleExternals sampleProcess otherVersionToggleJson
      (.arr [staticEntry113]) "Icons" "icons" otherVersionToggle otherVersionToggle
      rfl rfl rfl rfl rfl rfl).1,
   (toggle_without_opcodes_is_unsupported sampleExternals sampleProcess otherVersionToggleJson
      (.arr [staticEntry113]) "Icons" "icons" otherVersionToggle otherVersionToggle
      rfl rfl rfl rfl rfl rfl).2.2.1,
   ((toggle_without_opcodes_is_unsupported sampleExternals sampleProcess otherVersionToggleJson
      (.arr [staticEntry113]) "Icons" "icons" otherVersionToggle otherVersionToggle
      rfl rfl rfl rfl rfl rfl).2.2.2.1 iconsOnConfig sampleProcess [.draw true, .toggle]).2.2⟩


/-! ## Address resolution in static offset mode -/

/-- C12 (counterexample): the library of `unloadedLibraryOpcode` is not loaded in the sample
process, the lookup yields the null handle; `applyOpcode` does not return false: it
writes the patched bytes at the bare offset `0x10` and returns true, and `verifyOpcode`
reads at the bare offset and returns true. -/
theorem unloaded_library_counterexample :
    unloadedLibraryOpcode.library.isEmpty = false ∧
    sampleProcess.libModule unloadedLibraryOpcode.library = 0 ∧
    (applyOpcode unloadedLibraryOpcode true sampleProcess).1 = true ∧
    (applyOpcode unloadedLibraryOpcode true sampleProcess).2.writes = [(0x10, [0x90, 0x90])] ∧
    (applyOpcode unloadedLibraryOpcode true sampleProcess).2.bytes 0x10 = 0x90 ∧
    verifyOpcode unloadedLibraryOpcode sampleProcess = true := by
  refine ⟨by decide, rfl, by decide, by decide, by decide, by decide⟩

/-- C12 (amended): in static offset mode the target address is `base(library) + offset`
in `uintptr_t` arithmetic, with the base of the primary module when `library` is empty.
Neither function tests the handle: when the lookup of the named library yields the null
handle, the target address is the bare offset, `applyOpcode` attempts its write there and
returns the result of that write, and `verifyOpcode` reads there and returns whether the
bytes found equal `original`. -/
theorem static_offset_target (o : Opcode) (enable : Bool) (p : Process) :
    (o.library.isEmpty = true → targetAddress p o = (p.mainModule + o.address) % 2 ^ 64) ∧
    (o.library.isEmpty = false →
      targetAddress p o = (p.libModule o.library + o.address) % 2 ^ 64) ∧
    (o.library.isEmpty = false → p.libModule o.library = 0 →
      targetAddress p o = o.address % 2 ^ 64 ∧
      applyOpcode o enable p
        = patchMemory p (o.address % 2 ^ 64) (if enable then o.patched else o.original) ∧
      (applyOpcode o enable p).2.writes
        = p.writes ++ [(o.address % 2 ^ 64, if enable then o.patched else o.original)] ∧
      (applyOpcode o enable p).1
        = p.writable (o.address % 2 ^ 64) (if enable then o.patched else o.original).length ∧
      verifyOpcode o p
        = decide (readMemory p (o.address % 2 ^ 64) o.original.length = o.original)) := by
  refine ⟨?_, ?_, ?_⟩
  · intro h
    simp [targetAddress, moduleHandle, h, ptrMod]
  · intro h
    simp [targetAddress, moduleHandle, h, ptrMod]
  · intro h h0
    have haddr : targetAddress p o = o.address % 2 ^ 64 := by
      simp [targetAddress, moduleHandle, h, h0, ptrMod]
    refine ⟨haddr, ?_, ?_, ?_, ?_⟩
    · simp only [applyOpcode, haddr]
    · rw [applyOpcode_writes, haddr]
    · rw [applyOpcode_fst, haddr]
    · simp only [verifyOpcode, haddr]

/-- Witness of C12 (amended): the opcode of the library that is not loaded. -/
theorem static_offset_target_witness :
    targetAddress sampleProcess unloadedLibraryOpcode = 0x10 % 2 ^ 64 ∧
    (applyOpcode unloadedLibraryOpcode true sampleProcess).2.writes
      = [] ++ [(0x10 % 2 ^ 64, [0x90, 0x90])] :=
  ⟨((static_offset_target unloadedLibraryOpcode true sampleProcess).2.2 (by decide) rfl).1,
   ((static_offset_target unloadedLibraryOpcode true sampleProcess).2.2 (by decide) rfl).2.2.1⟩


/-! ## The enabled flag and the memory -/

theorem storeAll_untouched (enable : Bool) (addr : Opcode → Nat) (a : Nat)
    (ops : List Opcode) (m : Nat → Byte)
    (hout : ∀ o ∈ ops,
      ¬ (addr o ≤ a ∧ a < addr o + (if enable then o.patched else o.original).length)) :
    storeAll enable addr ops m a = m a := by
  induction ops generalizing m with
  | nil => rfl
  | cons x rest ih =>
    show storeAll enable addr rest
      (storeBytes m (addr x) (if enable then x.patched else x.original)) a = m a
    rw [ih _ (fun o ho => hout o (List.mem_cons_of_mem _ ho))]
    have hx := hout x (List.mem_cons_self _ _)
    exact storeBytes_outside _ _ _ _ (by omega)

theorem storeAll_holds (enable : Bool) (addr : Opcode → Nat) (ops : List Opcode)
    (m : Nat → Byte) (hdisj : RangesDisjoint enable addr ops) (o : Opcode) (ho : o ∈ ops)
    (i : Nat) (hi : i < (if enable then o.patched else o.original).length) :
    storeAll enable addr ops m (addr o + i) = (if enable then o.patched else o.original)[i] := by
  induction ops generalizing m with
  | nil => cases ho
  | cons x rest ih =>
    have hp := List.pairwise_cons.1 hdisj
    show storeAll enable addr rest
      (storeBytes m (addr x) (if enable then x.patched else x.original)) (addr o + i) = _
    rcases List.mem_cons.1 ho with rfl | ho'
    · rw [storeAll_untouched]
      · exact storeBytes_inside _ _ _ i hi
      · intro y hy hin
        have hr := hp.1 y hy
        omega
    · exact ih _ hp.2 ho'

theorem applyPatch_success_holds (c : ToggleComponent) (enable : Bool) (p : Process)
    (hw : c.m_hasWarning = false)
    (hdisj : RangesDisjoint enable (targetAddress p) c.m_opcodes)
    (hok : (c.applyPatch enable p).1 = true) (o : Opcode) (ho : o ∈ c.m_opcodes) :
    readMemory (c.applyPatch enable p).2 (targetAddress (c.applyPatch enable p).2 o)
        (if enable then o.patched else o.original).length
      = (if enable then o.patched else o.original) := by
  simp only [ToggleComponent.applyPatch, hw, Bool.false_eq_true, if_false] at hok ⊢
  rw [readMemory_eq_iff, applyLoop_targetAddress, applyLoop_bytes_of_success _ _ _ _ hok]
  intro i hi
  exact storeAll_holds enable (targetAddress p) c.m_opcodes p.bytes hdisj o ho i hi

theorem flagMatchesMemory_iff (c : ToggleComponent) (q : Process) :
    flagMatchesMemory c q = true ↔
      ∀ o ∈ c.m_opcodes,
        readMemory q (targetAddress q o) (if c.m_enabled then o.patched else o.original).length
          = (if c.m_enabled then o.patched else o.original) := by
  simp [flagMatchesMemory, List.all_eq_true]

/-- C11 (counterexample): three components whose enabled flag is not consistent with the
memory although no write failed. The unsupported toggle built from `staleToggleJson`,
stored as enabled, has enabled true after `onInit` while nothing was written. The toggle
with two overlapping opcodes, stored as enabled, has both writes of `onInit` succeed, and
the second write covers a byte of the first opcode. The sample toggle, whose original
bytes are not those in memory, has enabled false after `onInit` with nothing stored. -/
theorem flag_memory_counterexample :
    (loadToggle sampleExternals sampleProcess staleToggleJson = .ok staleToggle ∧
      (staleToggle.onInit noclipOnConfig sampleProcess).1.m_enabled = true ∧
      (staleToggle.onInit noclipOnConfig sampleProcess).2.writes = [] ∧
      flagMatchesMemory (staleToggle.onInit noclipOnConfig sampleProcess).1
        (staleToggle.onInit noclipOnConfig sampleProcess).2 = false) ∧
    (overlappingToggle.m_hasWarning = false ∧
      (overlappingToggle.onInit overlapOnConfig sampleProcess).1.m_enabled = true ∧
      (overlappingToggle.applyPatch true sampleProcess).1 = true ∧
      flagMatchesMemory (overlappingToggle.onInit overlapOnConfig sampleProcess).1
        (overlappingToggle.onInit overlapOnConfig sampleProcess).2 = false) ∧
    (sampleToggle.m_hasWarning = false ∧
      (sampleToggle.onInit emptyConfig sampleProcess).1.m_enabled = false ∧
      (sampleToggle.onInit emptyConfig sampleProcess).2.writes = [] ∧
      flagMatchesMemory (sampleToggle.onInit emptyConfig sampleProcess).1
        (sampleToggle.onInit emptyConfig sampleProcess).2 = false) := by
  refine ⟨⟨rfl, by decide, by decide, by decide⟩, ⟨rfl, by decide, by decide, by decide⟩,
    ⟨rfl, by decide, by decide, by decide⟩⟩

/-- C11 (amended): for a toggle component without warning whose opcodes are written to
address ranges that do not overlap, the enabled flag is consistent with the memory after
an `onInit` that finds the stored value true, after a `toggled()` call and after a click
on the checkbox, whenever the pass of `applyPatch` made there returned true, that is no
write failed; after an `onInit` that finds the stored value false nothing is written and
the flag is consistent with the memory when every opcode verifies against it. -/
theorem flag_consistent_after_successful_pass (c : ToggleComponent) (cfg : Config)
    (p : Process) (hw : c.m_hasWarning = false)
    (hdisj : ∀ enable, RangesDisjoint enable (targetAddress p) c.m_opcodes) :
    (cfg.get ("hack." ++ c.m_id) false = true → (c.applyPatch true p).1 = true →
      (c.onInit cfg p).1.m_enabled = true ∧
      flagMatchesMemory (c.onInit cfg p).1 (c.onInit cfg p).2 = true) ∧
    (cfg.get ("hack." ++ c.m_id) false = false → (∀ o ∈ c.m_opcodes, verifyOpcode o p = true) →
      (c.onInit cfg p).1.m_enabled = false ∧ (c.onInit cfg p).2 = p ∧
      flagMatchesMemory (c.onInit cfg p).1 (c.onInit cfg p).2 = true) ∧
    ((c.applyPatch c.m_enabled p).1 = true →
      flagMatchesMemory c (c.toggled cfg p).2 = true) ∧
    ((c.applyPatch (!c.m_enabled) p).1 = true →
      (c.onDraw true cfg p).1.m_enabled = (!c.m_enabled) ∧
      flagMatchesMemory (c.onDraw true cfg p).1 (c.onDraw true cfg p).2.2 = true) := by
  have hpass : ∀ (enable : Bool) (d : ToggleComponent), d.m_opcodes = c.m_opcodes →
      d.m_hasWarning = false → d.m_enabled = enable → (d.applyPatch enable p).1 = true →
      flagMatchesMemory d (d.applyPatch enable p).2 = true := by
    intro enable d hops hdw hen hok
    rw [flagMatchesMemory_iff, hen]
    intro o ho
    exact applyPatch_success_holds d enable p hdw (by rw [hops]; exact hdisj enable) hok o ho
  refine ⟨?_, ?_, ?_, ?_⟩
  · intro hget hok
    simp only [ToggleComponent.onInit, hget, if_true, ToggleComponent.applyPatchCurrent]
    refine ⟨trivial, ?_⟩
    refine hpass true _ ?_ ?_ ?_ ?_
    · rfl
    · exact hw
    · rfl
    · simp only [ToggleComponent.applyPatch, hw] at hok ⊢
      exact hok
  · intro hget hver
    simp only [ToggleComponent.onInit, hget, Bool.false_eq_true, if_false]
    refine ⟨trivial, trivial, ?_⟩
    rw [flagMatchesMemory_iff]
    intro o ho
    have h := hver o ho
    simp only [verifyOpcode, decide_eq_true_eq] at h
    simpa using h
  · intro hok
    simp only [ToggleComponent.toggled, ToggleComponent.applyPatchCurrent]
    exact hpass c.m_enabled c rfl hw rfl hok
  · intro hok
    simp only [ToggleComponent.onDraw, checkbox, hw, ToggleComponent.toggled,
      ToggleComponent.applyPatchCurrent]
    simp only [Bool.not_false, Bool.and_true, if_true]
    refine ⟨trivial, ?_⟩
    refine hpass (!c.m_enabled) _ ?_ ?_ ?_ ?_
    · rfl
    · rfl
    · rfl
    · simp only [ToggleComponent.applyPatch, hw] at hok ⊢
      exact hok


theorem twoOpcodeToggle_disjoint (enable : Bool) :
    RangesDisjoint enable (targetAddress sampleProcess) twoOpcodeToggle.m_opcodes := by
  unfold RangesDisjoint
  cases enable <;> decide

/-- Witness of C11 (amended): the toggle with two separate opcodes on the sample process,
after `onInit` with the stored value true, after `onInit` with nothing stored, after a
`toggled()` call and after a click. -/
theorem flag_consistent_after_successful_pass_witness :
    flagMatchesMemory (twoOpcodeToggle.onInit twoOnConfig sampleProcess).1
      (twoOpcodeToggle.onInit twoOnConfig sampleProcess).2 = true ∧
    flagMatchesMemory (twoOpcodeToggle.onInit emptyConfig sampleProcess).1
      (twoOpcodeToggle.onInit emptyConfig sampleProcess).2 = true ∧
    flagMatchesMemory twoOpcodeToggle (twoOpcodeToggle.toggled emptyConfig sampleProcess).2
      = true ∧
    flagMatchesMemory (twoOpcodeToggle.onDraw true emptyConfig sampleProcess).1
      (twoOpcodeToggle.onDraw true emptyConfig sampleProcess).2.2 = true :=
  ⟨((flag_consistent_after_successful_pass twoOpcodeToggle twoOnConfig sampleProcess rfl
      twoOpcodeToggle_disjoint).1 (by decide) (by decide)).2,
   ((flag_consistent_after_successful_pass twoOpcodeToggle emptyConfig sampleProcess rfl
      twoOpcodeToggle_disjoint).2.1 (by decide) (by decide)).2.2,
   (flag_consistent_after_successful_pass twoOpcodeToggle emptyConfig sampleProcess rfl
      twoOpcodeToggle_disjoint).2.2.1 (by decide),
   ((flag_consistent_after_successful_pass twoOpcodeToggle emptyConfig sampleProcess rfl
      twoOpcodeToggle_disjoint).2.2.2 (by decide)).2⟩


/-! ## The replacement loop of the presence texts -/

theorem replaceLoop_of_fixed (token value str : List Char) (pos : Nat)
    (hfind : stringFind str token = some pos)
    (hsame : stringReplace str pos token.length value = str) (fuel : Nat) :
    replaceLoop token value fuel str = none := by
  induction fuel with
  | zero => rfl
  | succ n ih =>
    simp only [replaceLoop, hfind, hsame]
    exact ih

theorem replaceLoop_of_absent (token value str : List Char)
    (hfind : stringFind str token = none) (fuel : Nat) :
    replaceLoop token value fuel str = none ∨ replaceLoop token value fuel str = some str := by
  cases fuel with
  | zero => exact Or.inl rfl
  | succ n =>
    right
    simp [replaceLoop, hfind]

theorem replaceTokens_of_fixed (fuel : Nat) (loop : String × String) (str : List Char)
    (pos : Nat) (hfind : stringFind str loop.1.data = some pos)
    (hsame : stringReplace str pos loop.1.data.length loop.2.data = str)
    (table : List (String × String)) (hmem : loop ∈ table)
    (hothers : ∀ e ∈ table, e = loop ∨ stringFind str e.1.data = none) :
    replaceTokens fuel table str = none := by
  induction table with
  | nil => cases hmem
  | cons e rest ih =>
    simp only [replaceTokens]
    by_cases he : e = loop
    · subst he
      rw [replaceLoop_of_fixed _ _ _ pos hfind hsame]
    · have habsent : stringFind str e.1.data = none := by
        rcases hothers e (List.mem_cons_self _ _) with h | h
        · exact absurd h he
        · exact h
      have hrest : loop ∈ rest := by
        rcases List.mem_cons.1 hmem with h | h
        · exact absurd h.symm he
        · exact h
      rcases replaceLoop_of_absent e.1.data e.2.data str habsent fuel with h | h
      · rw [h]
      · rw [h]
        exact ih hrest (fun x hx => hothers x (List.mem_cons_of_mem _ hx))

theorem replaceTokens_returns_on_plain_names :
    replaceTokens 3 (tokenTable stereoMadnessState) "{name} by {author}".data
      = some "Stereo Madness by RobTop".data := by
  decide

/-- C14 (the code at the failing input): while a level named `{name}` is played, the
configured text `{name}` makes `replaceTokens` never return: in whatever order the map is
iterated, and however many times the loop conditions are tested, the loop of the token
`{name}` has not ended, because each replacement puts the token back and the search
starts again at the beginning of the text. -/
theorem replaceTokens_never_returns (fuel : Nat) (table : List (String × String))
    (horder : table.Perm (tokenTable braceNameState)) :
    replaceTokens fuel table "{name}".data = none := by
  apply replaceTokens_of_fixed fuel ("{name}", "{name}") "{name}".data 0 (by decide) (by decide)
  · exact horder.mem_iff.2 (by decide)
  · intro e he
    have hall : ∀ x ∈ tokenTable braceNameState,
        x = ("{name}", "{name}") ∨ stringFind "{name}".data x.1.data = none := by
      decide
    exact hall e (horder.mem_iff.1 he)

/-- Witness of C14: the map iterated in the order of the source, with a bound of one
thousand tests of the loop condition. -/
theorem replaceTokens_never_returns_witness :
    replaceTokens 1000 (tokenTable braceNameState) "{name}".data = none :=
  replaceTokens_never_returns 1000 (tokenTable braceNameState) (List.Perm.refl _)


end OpenHack
